import Mathlib

/-!
Verification of the BuildXL macOS sandbox core (concurrent Trie and process-tree
tracker) against its natural-language specification.

The development is a shallow embedding of the reviewed C++ sources:

* `Trie.hpp` — the public, inline trie methods (key-kind guards, dispatch to
  `findPathNode`/`findUintNode` and the node-level operations).  The node-level
  operation bodies live in `Trie.cpp`, which is not among the reviewed sources;
  they are modelled from the detailed contracts written in the header doc
  comments (which coincide with §4.1 of the spec).  All operations are modelled
  sequentially: CAS contention and the `race` outcomes cannot arise in a
  sequential embedding.
* `BuildXLSandbox.cpp` — the process tracker (`TrackRootProcess`,
  `TrackChildProcess`, both `UntrackProcess` overloads,
  `FreeReportQueuesForClientProcess`).  The backing `ConcurrentDictionary` is
  not among the reviewed sources and is modelled from the spec as a plain
  association list; `ProcessObject`s are reference counted and shared between
  dictionary entries, which is modelled by a heap (`processes` list) addressed
  by index.
-/

namespace Spec2Proof

/-! ### Trie: data model (`Trie.hpp`) -/

/-- `Trie::TrieResult` (Trie.hpp, lines 87–95). -/
inductive TrieResult where
  | inserted
  | replaced
  | removed
  | alreadyEmpty
  | alreadyExists
  | race
  | failure
deriving DecidableEq, Repr

/-- `Trie::TrieKind` (Trie.hpp, line 117). -/
inductive TrieKind where
  | kUintTrie
  | kPathTrie
deriving DecidableEq, Repr

/-- `class Node` (Trie.hpp, lines 14–58): a record slot (`record_`, an arbitrary
value or null) plus a pre-allocated fixed-fanout children array whose entries
are initially null.  The value type is a parameter; `OSObject*` identity is
value identity in the model. -/
inductive Node (α : Type) : Type where
  | mk (record : Option α) (children : List (Option (Node α)))
deriving Repr

/-- `Node::record_` accessor. -/
def Node.record : Node α → Option α
  | .mk r _ => r

/-- `Node::children_` accessor. -/
def Node.children : Node α → List (Option (Node α))
  | .mk _ cs => cs

/-- `Node::create(numChildren)` (Trie.hpp, line 50): a fresh node has a null
record and `numChildren` null child pointers. -/
def Node.empty (fanout : Nat) : Node α := .mk none (List.replicate fanout none)

mutual

/-- Number of sentinel nodes (nodes with a non-null `record_`) reachable from
a node; the quantity the spec's size invariant refers to ("counter == number of
sentinel nodes reachable from root"). -/
def Node.sentinelCount : Node α → Nat
  | .mk r cs => (if r.isSome then 1 else 0) + scList cs

/-- Sum of `Node.sentinelCount` over a children array. -/
def scList : List (Option (Node α)) → Nat
  | [] => 0
  | c :: rest => scOpt c + scList rest

/-- `Node.sentinelCount` lifted to a nullable child pointer. -/
def scOpt : Option (Node α) → Nat
  | none => 0
  | some n => n.sentinelCount

end

/-! ### Trie: traversal

`findPathNode` / `findUintNode` (declared Trie.hpp, lines 231/237; bodies in
`Trie.cpp`, not among the reviewed sources) traverse from the root consuming
one key symbol per level, creating missing children on demand
(`ensureChildNodeExists`, Trie.hpp line 148: fails iff the index is outside
`[0, node.length())`), and the node-level operation then runs on the terminal
node.  `walk` performs the traversal and the terminal operation in one pass;
`f` is the node-level operation applied to the terminal node. -/

/-- Modelled from the spec (§4.1 "Traverse from root consuming one key symbol
per level, creating the needed child node on demand") and the `findPathNode` /
`ensureChildNodeExists` contracts: one-pass traversal plus terminal operation.
Returns `none` iff some key symbol is outside the node's children range, in
which case the trie is left unchanged by the caller. -/
def walk (fanout : Nat) (f : Node α → Node α × β) : Node α → List Nat → Option (Node α × β)
  | n, [] => some (f n)
  | .mk r cs, i :: is =>
    if h : i < cs.length then
      let child := (cs[i]).getD (Node.empty fanout)
      match walk fanout f child is with
      | none => none
      | some (c2, b) => some (.mk r (cs.set i (some c2)), b)
    else
      none

/-- Whether the traversal for a given index list stays within every node's
children range (the condition under which `walk` succeeds). -/
def canWalk (fanout : Nat) : Node α → List Nat → Bool
  | _, [] => true
  | .mk _ cs, i :: is =>
    if h : i < cs.length then canWalk fanout ((cs[i]).getD (Node.empty fanout)) is
    else false

/-- Pure lookup: the record stored at the node addressed by an index list
(absent if the path leads through a missing child).  Traversal-created empty
nodes carry no records, so this is the record-observable content of the trie. -/
def Node.find : Node α → List Nat → Option α
  | .mk r _, [] => r
  | .mk _ cs, i :: is =>
    match cs[i]? with
    | some (some c) => c.find is
    | _ => none

/-! ### Trie: node-level operations

Modelled from the spec (§4.1) and the contracts in Trie.hpp (the bodies are in
`Trie.cpp`, not among the reviewed sources).  Sequential model: the `race`
outcomes of `replace`/`remove` require a concurrent interleaving and never
arise. -/

/-- Node-level `Trie::insert` (contract at Trie.hpp, lines 199–206): succeeds
only if no value is associated with the node. -/
def insertT (v : α) : Node α → Node α × TrieResult
  | .mk none cs => (.mk (some v) cs, .inserted)
  | .mk (some r) cs => (.mk (some r) cs, .alreadyExists)

/-- Node-level `Trie::replace` (contract at Trie.hpp, lines 180–197):
associates the value unconditionally; reports `inserted` (and a size increment)
when the slot was empty, `replaced` otherwise. -/
def replaceT (v : α) : Node α → Node α × TrieResult
  | .mk none cs => (.mk (some v) cs, .inserted)
  | .mk (some _) cs => (.mk (some v) cs, .replaced)

/-- Node-level `Trie::remove` (contract at Trie.hpp, lines 208–222). -/
def removeT : Node α → Node α × TrieResult
  | .mk none cs => (.mk none cs, .alreadyEmpty)
  | .mk (some _) cs => (.mk none cs, .removed)

/-- Node-level `Trie::getOrAdd`/`makeSentinel` (contracts at Trie.hpp, lines
150–173): returns the existing record, or assigns and returns the factory's
product.  The factory is modelled by its product `fv` (spec §9: "model as a
pure function producing a candidate value"). -/
def getOrAddT (fv : α) : Node α → Node α × (TrieResult × α)
  | .mk none cs => (.mk (some fv) cs, (.inserted, fv))
  | .mk (some r) cs => (.mk (some r) cs, (.alreadyExists, r))

/-- Node-level `Trie::get` (contract at Trie.hpp, lines 175–178). -/
def getT : Node α → Node α × Option α :=
  fun n => (n, n.record)

/-! ### Trie: key encoding -/

/-- ASCII `toupper` on a byte, as used by the children-index formula
(Trie.hpp, lines 25–31). -/
def toupperByte (c : Nat) : Nat :=
  if 97 ≤ c ∧ c ≤ 122 then c - 32 else c

/-- The children-array index of one path byte: `toupper(ch) - 32`
(Trie.hpp, lines 25–32).  A byte is addressable iff the index falls inside the
65-entry children array, i.e. iff the byte is ASCII 32–122; any other byte
makes the key unrepresentable (`findPathNode` returns null). -/
def pathIdx (c : Nat) : Option Nat :=
  let u := toupperByte c
  if 32 ≤ u ∧ u ≤ 96 then some (u - 32) else none

/-- Index list of a path key (a path is a byte list); `none` iff some byte is
not addressable.  Modelled from the spec: the character validation performed
inside `findPathNode` (`Trie.cpp` is not among the reviewed sources); the spec
(§3) says any byte outside the addressable ASCII range makes the key
unrepresentable and the operation fails without side effects. -/
def pathToIndices : List Nat → Option (List Nat)
  | [] => some []
  | c :: cs =>
    match pathIdx c, pathToIndices cs with
    | some i, some is => some (i :: is)
    | _, _ => none

/-- Index list of a uint key.  Modelled from the spec: `findUintNode`'s digit
decomposition (`Trie.cpp` is not among the reviewed sources); one decimal digit
per level (`s_uintNodeChildrenCount = 10`, Trie.hpp line 35).  The digit order
is immaterial to the claims. -/
def uintIndices (k : Nat) : List Nat :=
  if k = 0 then [0] else Nat.digits 10 k

/-! ### Trie: the structure and its public operations (Trie.hpp, lines 76–372) -/

/-- `class Trie` (Trie.hpp): root node, key-kind tag fixed at construction,
live-entry counter `size_`, and the change-notification callback.  The
callback is modelled as registered, with `events` logging its invocations
`(oldCount, newCount)` in order.  `size_` is a C `uint`; it is modelled as
`Nat` (the 2^32 wrap is elided: a removal decrements it only when a record was
actually deleted, in which case the size invariant proved below gives
`size_ > 0`, and the modelled kernel cache never reaches 2^32 entries). -/
structure Trie (α : Type) where
  root : Node α
  kind : TrieKind
  size : Nat
  events : List (Nat × Nat)

/-- `Trie::createPathTrie()` (Trie.hpp, line 371): root is a fresh path node. -/
def Trie.createPathTrie (α : Type) : Trie α := ⟨Node.empty 65, .kPathTrie, 0, []⟩

/-- `Trie::createUintTrie()` (Trie.hpp, line 370): root is a fresh uint node. -/
def Trie.createUintTrie (α : Type) : Trie α := ⟨Node.empty 10, .kUintTrie, 0, []⟩

/-- `Trie::getCount()` (Trie.hpp, line 260): returns `size_`. -/
def Trie.getCount (t : Trie α) : Nat := t.size

/-- `Trie::triggerOnChange` (contract at Trie.hpp, lines 138–139): invokes the
callback iff the count actually changed; followed by the `size_` update itself. -/
def Trie.setSize (t : Trie α) (newSize : Nat) : Trie α :=
  { t with
    size := newSize
    events := t.events ++ (if t.size ≠ newSize then [(t.size, newSize)] else []) }

/-- The size/notification update accompanying a node-level result: occupancy
grows on `inserted`, shrinks on `removed`, and is untouched otherwise
(spec §4.1: "Every structural and value mutation that changes occupancy
triggers the size counter's atomic update and, if registered, the
change-notification callback with (oldCount, newCount)"). -/
def Trie.applyResult (t : Trie α) (res : TrieResult) : Trie α :=
  match res with
  | .inserted => t.setSize (t.size + 1)
  | .removed => t.setSize (t.size - 1)
  | _ => t

/-- `Trie::get(const char *path)` (Trie.hpp, lines 282–286): null unless this
is a path trie; otherwise the record of the node `findPathNode` reaches (the
traversal may create empty nodes, hence the returned trie). -/
def Trie.getP (t : Trie α) (path : List Nat) : Trie α × Option α :=
  if t.kind ≠ TrieKind.kPathTrie then (t, none) else
  match pathToIndices path with
  | none => (t, none)
  | some is =>
    match walk 65 getT t.root is with
    | none => (t, none)
    | some (r2, v) => ({ t with root := r2 }, v)

/-- `Trie::getAs<T>(const char *key)` (Trie.hpp, lines 288–293): `get` followed
by `OSDynamicCast`; the model stores a single value type, so the cast is the
identity. -/
def Trie.getAsP (t : Trie α) (path : List Nat) : Trie α × Option α :=
  if t.kind ≠ TrieKind.kPathTrie then (t, none) else t.getP path

/-- `Trie::getOrAdd(const char *path, ...)` (Trie.hpp, lines 305–309). -/
def Trie.getOrAddP (t : Trie α) (path : List Nat) (fv : α) : Trie α × Option α :=
  if t.kind ≠ TrieKind.kPathTrie then (t, none) else
  match pathToIndices path with
  | none => (t, none)
  | some is =>
    match walk 65 (getOrAddT fv) t.root is with
    | none => (t, none)
    | some (r2, res, v) => (Trie.applyResult { t with root := r2 } res, some v)

/-- `Trie::insert(const char *path, ...)` (Trie.hpp, lines 317–321). -/
def Trie.insertP (t : Trie α) (path : List Nat) (v : α) : Trie α × TrieResult :=
  if t.kind ≠ TrieKind.kPathTrie then (t, .failure) else
  match pathToIndices path with
  | none => (t, .failure)
  | some is =>
    match walk 65 (insertT v) t.root is with
    | none => (t, .failure)
    | some (r2, res) => (Trie.applyResult { t with root := r2 } res, res)

/-- `Trie::replace(const char *path, ...)` (Trie.hpp, lines 311–315). -/
def Trie.replaceP (t : Trie α) (path : List Nat) (v : α) : Trie α × TrieResult :=
  if t.kind ≠ TrieKind.kPathTrie then (t, .failure) else
  match pathToIndices path with
  | none => (t, .failure)
  | some is =>
    match walk 65 (replaceT v) t.root is with
    | none => (t, .failure)
    | some (r2, res) => (Trie.applyResult { t with root := r2 } res, res)

/-- `Trie::remove(const char *key)` (Trie.hpp, lines 323–327). -/
def Trie.removeP (t : Trie α) (path : List Nat) : Trie α × TrieResult :=
  if t.kind ≠ TrieKind.kPathTrie then (t, .failure) else
  match pathToIndices path with
  | none => (t, .failure)
  | some is =>
    match walk 65 removeT t.root is with
    | none => (t, .failure)
    | some (r2, res) => (Trie.applyResult { t with root := r2 } res, res)

/-- `Trie::get(uint64_t key)` (Trie.hpp, lines 331–335). -/
def Trie.getU (t : Trie α) (key : Nat) : Trie α × Option α :=
  if t.kind ≠ TrieKind.kUintTrie then (t, none) else
  match walk 10 getT t.root (uintIndices key) with
  | none => (t, none)
  | some (r2, v) => ({ t with root := r2 }, v)

/-- `Trie::getAs<T>(uint64_t key)` (Trie.hpp, lines 337–342). -/
def Trie.getAsU (t : Trie α) (key : Nat) : Trie α × Option α :=
  if t.kind ≠ TrieKind.kUintTrie then (t, none) else t.getU key

/-- `Trie::getOrAdd(uint64_t key, ...)` (Trie.hpp, lines 344–348). -/
def Trie.getOrAddU (t : Trie α) (key : Nat) (fv : α) : Trie α × Option α :=
  if t.kind ≠ TrieKind.kUintTrie then (t, none) else
  match walk 10 (getOrAddT fv) t.root (uintIndices key) with
  | none => (t, none)
  | some (r2, res, v) => (Trie.applyResult { t with root := r2 } res, some v)

/-- `Trie::insert(uint64_t key, ...)` (Trie.hpp, lines 356–360). -/
def Trie.insertU (t : Trie α) (key : Nat) (v : α) : Trie α × TrieResult :=
  if t.kind ≠ TrieKind.kUintTrie then (t, .failure) else
  match walk 10 (insertT v) t.root (uintIndices key) with
  | none => (t, .failure)
  | some (r2, res) => (Trie.applyResult { t with root := r2 } res, res)

/-- `Trie::replace(uint64_t key, ...)` (Trie.hpp, lines 350–354). -/
def Trie.replaceU (t : Trie α) (key : Nat) (v : α) : Trie α × TrieResult :=
  if t.kind ≠ TrieKind.kUintTrie then (t, .failure) else
  match walk 10 (replaceT v) t.root (uintIndices key) with
  | none => (t, .failure)
  | some (r2, res) => (Trie.applyResult { t with root := r2 } res, res)

/-- `Trie::remove(uint64_t key)` (Trie.hpp, lines 362–366). -/
def Trie.removeU (t : Trie α) (key : Nat) : Trie α × TrieResult :=
  if t.kind ≠ TrieKind.kUintTrie then (t, .failure) else
  match walk 10 removeT t.root (uintIndices key) with
  | none => (t, .failure)
  | some (r2, res) => (Trie.applyResult { t with root := r2 } res, res)

/-! ### Process tracker: data model (`BuildXLSandbox.cpp`, `ProcessObject.hpp`)

`ProcessObject` instances are reference-counted and shared: one entity may be
referenced by several dictionary entries (a child's pid maps to its root's
entity).  The model makes the sharing explicit with a heap: `processes` is the
list of live entities and a "pointer" is an index into it.  `pid_t` is a C
`int`; pids and pip ids are modelled as `Int` (`pipid_t` is a `uint64` compared
against `-1`; the `Int` model keeps that comparison literal).  The tree count
is a C `int` mutated by `OSIncrementAtomic`/`OSDecrementAtomic`; its 2^31
wrap is unreachable for the tree sizes involved and is elided. -/

/-- `class ProcessObject` (ProcessObject.hpp, lines 23–81): identity (process
id, owning client id), pip id (read from the manifest), and the atomic
live-child count `processTreeCount_`.  The manifest payload and the
per-process report cache play no role in the tracked claims and are omitted. -/
structure ProcessObject where
  clientPid : Int
  processId : Int
  pipId : Int
  processTreeCount : Int
deriving DecidableEq, Repr, Inhabited

/-- Modelled from the spec: `ProcessObject::init` (`ProcessObject.cpp` is not
among the reviewed sources); spec §3: "an atomic live-child count initialized
to 0 at creation and incremented once per linked child". -/
def ProcessObject.createSpec (clientPid processId pipId : Int) : ProcessObject :=
  ⟨clientPid, processId, pipId, 0⟩

/-- `ProcessObject::init` with the live-child count initialized to 1 — the
root process counts itself.  This is the initialization the spec's end-to-end
scenario (§8: completion fires on the (K+1)-th untrack for a root with K
children) and the lifecycle sentence (§3: completion fires when the count
reaches zero on the root entity) require; `ProcessObject.createSpec` (count 0)
contradicts them. -/
def ProcessObject.createRooted (clientPid processId pipId : Int) : ProcessObject :=
  ⟨clientPid, processId, pipId, 1⟩

/-- State of a `BuildXLSandbox` instance (BuildXLSandbox.cpp): the
`trackedProcesses_` dictionary (pid → entity reference), the entity heap, the
per-client report queues (modelled as the list of client pids owning queues —
queue contents play no role in the tracked claims), plus two observation logs:
`completions` records each `ReportProcessTreeCompleted` firing (by entity
reference, in order) and `consistencyErrors` records each data-consistency
`log_error` in `TrackChildProcess` (by child pid, in order). -/
structure SandboxState where
  trackedProcesses : List (Int × Nat)
  processes : List ProcessObject
  reportQueues : List Int
  completions : List Nat
  consistencyErrors : List Int
deriving DecidableEq, Repr

/-- The entity a reference points to (junk default for a dangling reference;
theorems about states carry the validity of the references they use). -/
def SandboxState.ent (s : SandboxState) (r : Nat) : ProcessObject :=
  s.processes.getD r default

/-- Modelled from the spec: `ConcurrentDictionary::getProcess`
(`ConcurrentDictionary.cpp` is not among the reviewed sources): the dictionary
lookup used by `BuildXLSandbox::FindTrackedProcess` (BuildXLSandbox.cpp,
lines 276–281). -/
def SandboxState.getProcess (s : SandboxState) (pid : Int) : Option Nat :=
  (s.trackedProcesses.find? (fun e => e.1 = pid)).map (fun e => e.2)

/-- Removal of a pid's mapping from the dictionary (keys are unique in every
reachable dictionary, so filtering is removal of the one entry). -/
def removeMapping (m : List (Int × Nat)) (pid : Int) : List (Int × Nat) :=
  m.filter (fun e => e.1 ≠ pid)

/-- Modelled from the spec: `ConcurrentDictionary::removeProcess`: removes the
mapping for `pid`, reporting whether a mapping was found (the failure branch
is taken at BuildXLSandbox.cpp, line 363). -/
def SandboxState.removeProcess (s : SandboxState) (pid : Int) : SandboxState × Bool :=
  if (s.trackedProcesses.find? (fun e => e.1 = pid)).isSome then
    ({ s with trackedProcesses := removeMapping s.trackedProcesses pid }, true)
  else
    (s, false)

/-- Modelled from the spec: `ConcurrentDictionary::insertProcess` ("trackRoot
inserts under the process's own id", §4.2): adds the mapping from the entity's
process id to the entity, reporting success (allocation failure is the only
failure mode and is not modelled). -/
def SandboxState.insertProcess (s : SandboxState) (r : Nat) : SandboxState × Bool :=
  ({ s with trackedProcesses := ((s.ent r).processId, r) :: s.trackedProcesses }, true)

/-- In-place update of the entity an entry points to (the model of mutating a
shared `ProcessObject` through any of its references). -/
def SandboxState.modifyEnt (s : SandboxState) (r : Nat) (f : ProcessObject → ProcessObject) :
    SandboxState :=
  { s with processes := s.processes.set r (f (s.ent r)) }

/-- `ProcessObject::incrementProcessTreeCount` (ProcessObject.hpp, line 57). -/
def SandboxState.incrementTreeCount (s : SandboxState) (r : Nat) : SandboxState :=
  s.modifyEnt r (fun e => { e with processTreeCount := e.processTreeCount + 1 })

/-- `ProcessObject::decrementProcessTreeCount` (ProcessObject.hpp, line 58). -/
def SandboxState.decrementTreeCount (s : SandboxState) (r : Nat) : SandboxState :=
  s.modifyEnt r (fun e => { e with processTreeCount := e.processTreeCount - 1 })

/-- `ProcessObject::hasEmptyProcessTree` (ProcessObject.hpp, line 56):
`OSCompareAndSwap(0, 0, &processTreeCount_)`, i.e. the count equals zero. -/
def SandboxState.hasEmptyProcessTree (s : SandboxState) (r : Nat) : Bool :=
  (s.ent r).processTreeCount = 0

/-- `BuildXLSandbox::UntrackProcess(pid_t, ProcessObject*)`
(BuildXLSandbox.cpp, lines 352–380): remove the mapping for `pid` (bailing out
if it is absent), decrement the shared entity's tree count, and fire
`ReportProcessTreeCompleted` iff the tree is now empty.  The surrounding
retain/release pair keeps the entity alive for the duration and has no
observable effect in the model. -/
def UntrackProcessWith (s : SandboxState) (pid : Int) (r : Nat) : SandboxState :=
  let rm := s.removeProcess pid
  if rm.2 then
    let s2 := rm.1.decrementTreeCount r
    if s2.hasEmptyProcessTree r then
      { s2 with completions := s2.completions ++ [r] }
    else
      s2
  else
    rm.1

/-- `BuildXLSandbox::UntrackProcess(pid_t, pipid_t)` (BuildXLSandbox.cpp,
lines 336–350): look the pid up; proceed iff found and (no expectation, i.e.
`expectedPipId == -1`, or the found entity's pip id matches). -/
def UntrackProcessPip (s : SandboxState) (pid : Int) (expectedPipId : Int) :
    SandboxState × Bool :=
  match s.getProcess pid with
  | some r =>
    if expectedPipId = -1 ∨ (s.ent r).pipId = expectedPipId then
      (UntrackProcessWith s pid r, true)
    else
      (s, false)
  | none => (s, false)

/-- `BuildXLSandbox::TrackRootProcess` (BuildXLSandbox.cpp, lines 283–302):
if a mapping for the new root's pid already exists, untrack the stale entry
first, then insert the new root under its own id and return whether the
insertion succeeded. -/
def TrackRootProcess (s : SandboxState) (r : Nat) : SandboxState × Bool :=
  let pid := (s.ent r).processId
  let s1 :=
    match s.getProcess pid with
    | some exRef => UntrackProcessWith s pid exRef
    | none => s
  s1.insertProcess r

/-- `BuildXLSandbox::TrackChildProcess` (BuildXLSandbox.cpp, lines 304–334):
if the child pid is already tracked, log the data-consistency error exactly
when the existing entity's pip id AND owning client pid both differ from the
intended root's (the `&&` at lines 314–315), and return false without any
other mutation; otherwise map the child pid to the root's entity, increment
the shared tree count, and return true. -/
def TrackChildProcess (s : SandboxState) (childPid : Int) (r : Nat) : SandboxState × Bool :=
  match s.getProcess childPid with
  | some exRef =>
    let s1 :=
      if (s.ent exRef).pipId ≠ (s.ent r).pipId ∧ (s.ent exRef).clientPid ≠ (s.ent r).clientPid
      then { s with consistencyErrors := s.consistencyErrors ++ [childPid] }
      else s
    (s1, false)
  | none =>
    let s1 := { s with trackedProcesses := (childPid, r) :: s.trackedProcesses }
    (s1.incrementTreeCount r, true)

/-- `BuildXLSandbox::FreeReportQueuesForClientProcess` (BuildXLSandbox.cpp,
lines 203–237): remove the client's report queues, then iterate over the
tracked-process dictionary and, for every entity owned by the client, call
`removeProcess(context->ctxPid)` — the argument is the CLIENT pid, exactly as
written at line 231 (the log line and the comment above the loop speak of
removing the tracked process).  `forEach` (`ConcurrentDictionary.cpp` is not
among the reviewed sources) is modelled from the spec as a fold over a
snapshot of the entries.  Returns whether removing the queues succeeded. -/
def FreeReportQueuesForClientProcess (s : SandboxState) (clientPid : Int) :
    SandboxState × Bool :=
  let qok := decide (clientPid ∈ s.reportQueues)
  let s1 := { s with reportQueues := s.reportQueues.filter (fun q => q ≠ clientPid) }
  let s2 := s1.trackedProcesses.foldl
    (fun acc e =>
      if (acc.ent e.2).clientPid = clientPid then (acc.removeProcess clientPid).1 else acc)
    s1
  (s2, qok)

/-- The empty sandbox state (`BuildXLSandbox::init`, BuildXLSandbox.cpp, lines
17–50, with the entity heap seeded by the caller). -/
def SandboxState.initial (heap : List ProcessObject) : SandboxState :=
  ⟨[], heap, [], [], []⟩

/-- Untracking a list of pids one by one, each with no pip-id expectation
(the end-to-end scenario's untrack calls). -/
def untrackRun (s : SandboxState) (pids : List Int) : SandboxState :=
  pids.foldl (fun acc p => (UntrackProcessPip acc p (-1)).1) s

/-- Tracking a list of child pids one by one under the root entity `r`
(the end-to-end scenario's trackChild calls). -/
def trackChildRun (s : SandboxState) (pids : List Int) (r : Nat) : SandboxState :=
  pids.foldl (fun acc p => (TrackChildProcess acc p r).1) s

/-! ## Theorems -/

/-! ### Path-byte addressability -/

theorem pathIdx_eq_none_of_out {c : Nat} (h : c < 32 ∨ 122 < c) : pathIdx c = none := by
  rcases h with h | h <;> simp only [pathIdx, toupperByte] <;> split <;> simp <;> omega

theorem pathToIndices_eq_none {p : List Nat} {b : Nat} (hb : b ∈ p)
    (h : pathIdx b = none) : pathToIndices p = none := by
  induction p with
  | nil => cases hb
  | cons c cs ih =>
    rcases List.mem_cons.mp hb with hbc | hmem
    · subst hbc
      simp [pathToIndices, h]
    · cases hpc : pathIdx c <;> simp [pathToIndices, hpc, ih hmem]

/-! ### Traversal lemmas -/

theorem walk_isSome_eq_canWalk (fanout : Nat) (f : Node α → Node α × β) :
    ∀ (is : List Nat) (n : Node α), (walk fanout f n is).isSome = canWalk fanout n is := by
  intro is
  induction is with
  | nil => intro n; simp [walk, canWalk]
  | cons i is ih =>
    intro n
    cases n with
    | mk r cs =>
      by_cases h : i < cs.length
      · rw [walk, canWalk]
        simp only [h, dif_pos]
        rw [← ih]
        cases hw : walk fanout f ((cs[i]).getD (Node.empty fanout)) is with
        | none => simp [hw]
        | some p => cases p with | mk c2 b => simp [hw]
      · rw [walk, canWalk]
        simp [h]

theorem walk_preserves_canWalk (fanout : Nat) (f : Node α → Node α × β) :
    ∀ (is : List Nat) (n n2 : Node α) (b : β),
      walk fanout f n is = some (n2, b) → canWalk fanout n2 is = true := by
  intro is
  induction is with
  | nil => intro n n2 b _; simp [canWalk]
  | cons i is ih =>
    intro n n2 b hw
    cases n with
    | mk r cs =>
      rw [walk] at hw
      by_cases h : i < cs.length
      · simp only [h, dif_pos] at hw
        cases hw2 : walk fanout f ((cs[i]).getD (Node.empty fanout)) is with
        | none => rw [hw2] at hw; cases hw
        | some p =>
          cases p with
          | mk c2 b2 =>
            rw [hw2] at hw
            cases hw
            rw [canWalk]
            have hlen : i < (cs.set i (some c2)).length := by
              simpa using h
            simp only [hlen, dif_pos]
            have hset : (cs.set i (some c2))[i] = some c2 := List.getElem_set_self hlen
            rw [hset]
            exact ih _ _ _ hw2
      · simp [h] at hw

theorem find_empty (fanout : Nat) : ∀ (is : List Nat), (Node.empty fanout : Node α).find is = none := by
  intro is
  cases is with
  | nil => rfl
  | cons i is =>
    rw [Node.empty, Node.find]
    have hg : (List.replicate fanout (none : Option (Node α)))[i]?
        = if i < fanout then some none else none := List.getElem?_replicate
    rw [hg]
    by_cases h : i < fanout <;> simp [h]

theorem find_cons_child (fanout : Nat) (r : Option α) (cs : List (Option (Node α)))
    (i : Nat) (is : List Nat) (h : i < cs.length) :
    (Node.mk r cs).find (i :: is) = ((cs[i]).getD (Node.empty fanout)).find is := by
  rw [Node.find]
  have hg : cs[i]? = some cs[i] := List.getElem?_eq_getElem h
  rw [hg]
  cases hc : cs[i] with
  | none => simp [find_empty]
  | some c => simp

theorem find_set_child (r : Option α) (cs : List (Option (Node α))) (i : Nat)
    (c2 : Node α) (is : List Nat) (h : i < cs.length) :
    (Node.mk r (cs.set i (some c2))).find (i :: is) = c2.find is := by
  rw [Node.find]
  have hlen : i < (cs.set i (some c2)).length := by simpa using h
  have hg : (cs.set i (some c2))[i]? = some ((cs.set i (some c2))[i]) :=
    List.getElem?_eq_getElem hlen
  rw [hg, List.getElem_set_self]

/-- `walk` reaches the terminal node for the given index list; the record it
finds there is the record `Node.find` reads, and after the terminal operation
the record at that path is the one the operation left.  Specialized to
`insertT`. -/
theorem walk_insertT_find (fanout : Nat) (v : α) :
    ∀ (is : List Nat) (n n2 : Node α) (res : TrieResult),
      walk fanout (insertT v) n is = some (n2, res) →
      (res = TrieResult.inserted ∧ n.find is = none ∧ n2.find is = some v)
      ∨ (∃ w, res = TrieResult.alreadyExists ∧ n.find is = some w ∧ n2.find is = some w) := by
  intro is
  induction is with
  | nil =>
    intro n n2 res hw
    cases n with
    | mk r cs =>
      cases r with
      | none =>
        rw [walk, insertT] at hw
        cases hw
        left; exact ⟨rfl, rfl, rfl⟩
      | some w =>
        rw [walk, insertT] at hw
        cases hw
        right; exact ⟨w, rfl, rfl, rfl⟩
  | cons i is ih =>
    intro n n2 res hw
    cases n with
    | mk r cs =>
      rw [walk] at hw
      by_cases h : i < cs.length
      · simp only [h, dif_pos] at hw
        cases hw2 : walk fanout (insertT v) ((cs[i]).getD (Node.empty fanout)) is with
        | none => rw [hw2] at hw; cases hw
        | some p =>
          cases p with
          | mk c2 b2 =>
            rw [hw2] at hw
            cases hw
            rw [find_cons_child fanout r cs i is h, find_set_child r cs i c2 is h]
            exact ih _ _ _ hw2
      · simp [h] at hw

/-- As `walk_insertT_find`, for `getOrAddT`. -/
theorem walk_getOrAddT_find (fanout : Nat) (fv : α) :
    ∀ (is : List Nat) (n n2 : Node α) (res : TrieResult) (x : α),
      walk fanout (getOrAddT fv) n is = some (n2, (res, x)) →
      n2.find is = some x
      ∧ ((n.find is = some x ∧ res = TrieResult.alreadyExists)
         ∨ (n.find is = none ∧ x = fv ∧ res = TrieResult.inserted)) := by
  intro is
  induction is with
  | nil =>
    intro n n2 res x hw
    cases n with
    | mk r cs =>
      cases r with
      | none =>
        rw [walk, getOrAddT] at hw
        cases hw
        exact ⟨rfl, Or.inr ⟨rfl, rfl, rfl⟩⟩
      | some w =>
        rw [walk, getOrAddT] at hw
        cases hw
        exact ⟨rfl, Or.inl ⟨rfl, rfl⟩⟩
  | cons i is ih =>
    intro n n2 res x hw
    cases n with
    | mk r cs =>
      rw [walk] at hw
      by_cases h : i < cs.length
      · simp only [h, dif_pos] at hw
        cases hw2 : walk fanout (getOrAddT fv) ((cs[i]).getD (Node.empty fanout)) is with
        | none => rw [hw2] at hw; cases hw
        | some p =>
          cases p with
          | mk c2 b2 =>
            rw [hw2] at hw
            cases hw
            rw [find_cons_child fanout r cs i is h, find_set_child r cs i c2 is h]
            exact ih _ _ _ _ hw2
      · simp [h] at hw

/-- As `walk_insertT_find`, for the read-only terminal `getT`. -/
theorem walk_getT_find (fanout : Nat) :
    ∀ (is : List Nat) (n n2 : Node α) (r : Option α),
      walk fanout getT n is = some (n2, r) → r = n.find is ∧ n2.find is = r := by
  intro is
  induction is with
  | nil =>
    intro n n2 r hw
    cases n with
    | mk rec cs =>
      rw [walk, getT] at hw
      cases hw
      exact ⟨rfl, rfl⟩
  | cons i is ih =>
    intro n n2 r hw
    cases n with
    | mk rec cs =>
      rw [walk] at hw
      by_cases h : i < cs.length
      · simp only [h, dif_pos] at hw
        cases hw2 : walk fanout getT ((cs[i]).getD (Node.empty fanout)) is with
        | none => rw [hw2] at hw; cases hw
        | some p =>
          cases p with
          | mk c2 b2 =>
            rw [hw2] at hw
            cases hw
            rw [find_cons_child fanout rec cs i is h, find_set_child rec cs i c2 is h]
            exact ih _ _ _ hw2
      · simp [h] at hw

/-- The result component of a `walk` satisfies any property every terminal
result satisfies. -/
theorem walk_res_prop (fanout : Nat) (f : Node α → Node α × β) (P : β → Prop)
    (hf : ∀ n : Node α, P (f n).2) :
    ∀ (is : List Nat) (n n2 : Node α) (b : β),
      walk fanout f n is = some (n2, b) → P b := by
  intro is
  induction is with
  | nil =>
    intro n n2 b hw
    rw [walk] at hw
    have := hf n
    cases hfn : f n with
    | mk n3 b3 =>
      rw [hfn] at hw this
      cases hw
      exact this
  | cons i is ih =>
    intro n n2 b hw
    cases n with
    | mk r cs =>
      rw [walk] at hw
      by_cases h : i < cs.length
      · simp only [h, dif_pos] at hw
        cases hw2 : walk fanout f ((cs[i]).getD (Node.empty fanout)) is with
        | none => rw [hw2] at hw; cases hw
        | some p =>
          cases p with
          | mk c2 b2 =>
            rw [hw2] at hw
            cases hw
            exact ih _ _ _ hw2
      · simp [h] at hw

/-- Claim C10: key-kind mismatch is a graceful no-op at the public interface —
every path-keyed operation invoked on an integer-keyed trie, and every
integer-keyed operation invoked on a path-keyed trie, returns the failure
sentinel or absent and leaves the trie (and hence its count) unchanged. -/
theorem trie_kind_mismatch_noop {α : Type} (t : Trie α) (path : List Nat) (key : Nat)
    (v fv : α) :
    (t.kind = TrieKind.kUintTrie →
      t.getP path = (t, none) ∧ t.getAsP path = (t, none) ∧ t.getOrAddP path fv = (t, none)
      ∧ t.insertP path v = (t, TrieResult.failure)
      ∧ t.replaceP path v = (t, TrieResult.failure)
      ∧ t.removeP path = (t, TrieResult.failure))
    ∧ (t.kind = TrieKind.kPathTrie →
      t.getU key = (t, none) ∧ t.getAsU key = (t, none) ∧ t.getOrAddU key fv = (t, none)
      ∧ t.insertU key v = (t, TrieResult.failure)
      ∧ t.replaceU key v = (t, TrieResult.failure)
      ∧ t.removeU key = (t, TrieResult.failure)) := by
  constructor <;> intro h <;>
    simp [Trie.getP, Trie.getAsP, Trie.getOrAddP, Trie.insertP, Trie.replaceP, Trie.removeP,
      Trie.getU, Trie.getAsU, Trie.getOrAddU, Trie.insertU, Trie.replaceU, Trie.removeU, h]

theorem trie_kind_mismatch_noop_witness :
    ((Trie.createUintTrie Nat).insertP [65] 5 = (Trie.createUintTrie Nat, TrieResult.failure))
    ∧ ((Trie.createPathTrie Nat).insertU 7 5
        = (Trie.createPathTrie Nat, TrieResult.failure)) :=
  ⟨((trie_kind_mismatch_noop (Trie.createUintTrie Nat) [65] 7 5 5).1 rfl).2.2.2.1,
   ((trie_kind_mismatch_noop (Trie.createPathTrie Nat) [65] 7 5 5).2 rfl).2.2.2.1⟩

/-- Claim C6: a path key containing a byte outside the addressable ASCII range
(32–122) makes every public path-keyed operation fail gracefully —
insert/replace/remove return the failure sentinel and get/getAs/getOrAdd
return absent — with no mutation of the trie (in particular `count()` and the
contents are unchanged). -/
theorem trie_invalid_byte_graceful {α : Type} (t : Trie α) (p : List Nat) (b : Nat)
    (v fv : α) (hb : b ∈ p) (hout : b < 32 ∨ 122 < b) :
    t.insertP p v = (t, TrieResult.failure)
    ∧ t.replaceP p v = (t, TrieResult.failure)
    ∧ t.removeP p = (t, TrieResult.failure)
    ∧ t.getP p = (t, none) ∧ t.getAsP p = (t, none) ∧ t.getOrAddP p fv = (t, none)
    ∧ (t.insertP p v).1.getCount = t.getCount := by
  have hnone : pathToIndices p = none :=
    pathToIndices_eq_none hb (pathIdx_eq_none_of_out hout)
  by_cases hk : t.kind = TrieKind.kPathTrie <;>
    simp [Trie.insertP, Trie.replaceP, Trie.removeP, Trie.getP, Trie.getAsP, Trie.getOrAddP,
      hnone, hk]

theorem trie_invalid_byte_graceful_witness :
    (Trie.createPathTrie Nat).insertP [1] 5 = (Trie.createPathTrie Nat, TrieResult.failure)
    ∧ (Trie.createPathTrie Nat).replaceP [1] 5 = (Trie.createPathTrie Nat, TrieResult.failure)
    ∧ (Trie.createPathTrie Nat).removeP [1] = (Trie.createPathTrie Nat, TrieResult.failure)
    ∧ (Trie.createPathTrie Nat).getP [1] = (Trie.createPathTrie Nat, none)
    ∧ (Trie.createPathTrie Nat).getAsP [1] = (Trie.createPathTrie Nat, none)
    ∧ (Trie.createPathTrie Nat).getOrAddP [1] 5 = (Trie.createPathTrie Nat, none)
    ∧ ((Trie.createPathTrie Nat).insertP [1] 5).1.getCount
        = (Trie.createPathTrie Nat).getCount :=
  trie_invalid_byte_graceful (Trie.createPathTrie Nat) [1] 1 5 5 (by decide) (by decide)

/-! ### Shape analysis of the public path operations -/

theorem insertP_cases (t : Trie α) (p : List Nat) (v : α) :
    t.insertP p v = (t, TrieResult.failure)
    ∨ ∃ is r2 res, t.kind = TrieKind.kPathTrie ∧ pathToIndices p = some is
        ∧ walk 65 (insertT v) t.root is = some (r2, res)
        ∧ t.insertP p v = (Trie.applyResult { t with root := r2 } res, res) := by
  by_cases hk : t.kind = TrieKind.kPathTrie
  · cases hpi : pathToIndices p with
    | none =>
      left
      unfold Trie.insertP
      rw [if_neg (by simp [hk])]
      simp only [hpi]
    | some is =>
      cases hw : walk 65 (insertT v) t.root is with
      | none =>
        left
        unfold Trie.insertP
        rw [if_neg (by simp [hk])]
        simp only [hpi, hw]
      | some pr =>
        rcases pr with ⟨r2, res⟩
        right
        refine ⟨is, r2, res, hk, rfl, hw, ?_⟩
        unfold Trie.insertP
        rw [if_neg (by simp [hk])]
        simp only [hpi, hw]
  · left
    unfold Trie.insertP
    rw [if_pos (by simp [hk])]

theorem replaceP_cases (t : Trie α) (p : List Nat) (v : α) :
    t.replaceP p v = (t, TrieResult.failure)
    ∨ ∃ is r2 res, t.kind = TrieKind.kPathTrie ∧ pathToIndices p = some is
        ∧ walk 65 (replaceT v) t.root is = some (r2, res)
        ∧ t.replaceP p v = (Trie.applyResult { t with root := r2 } res, res) := by
  by_cases hk : t.kind = TrieKind.kPathTrie
  · cases hpi : pathToIndices p with
    | none =>
      left
      unfold Trie.replaceP
      rw [if_neg (by simp [hk])]
      simp only [hpi]
    | some is =>
      cases hw : walk 65 (replaceT v) t.root is with
      | none =>
        left
        unfold Trie.replaceP
        rw [if_neg (by simp [hk])]
        simp only [hpi, hw]
      | some pr =>
        rcases pr with ⟨r2, res⟩
        right
        refine ⟨is, r2, res, hk, rfl, hw, ?_⟩
        unfold Trie.replaceP
        rw [if_neg (by simp [hk])]
        simp only [hpi, hw]
  · left
    unfold Trie.replaceP
    rw [if_pos (by simp [hk])]

theorem removeP_cases (t : Trie α) (p : List Nat) :
    t.removeP p = (t, TrieResult.failure)
    ∨ ∃ is r2 res, t.kind = TrieKind.kPathTrie ∧ pathToIndices p = some is
        ∧ walk 65 removeT t.root is = some (r2, res)
        ∧ t.removeP p = (Trie.applyResult { t with root := r2 } res, res) := by
  by_cases hk : t.kind = TrieKind.kPathTrie
  · cases hpi : pathToIndices p with
    | none =>
      left
      unfold Trie.removeP
      rw [if_neg (by simp [hk])]
      simp only [hpi]
    | some is =>
      cases hw : walk 65 (removeT (α := α)) t.root is with
      | none =>
        left
        unfold Trie.removeP
        rw [if_neg (by simp [hk])]
        simp only [hpi, hw]
      | some pr =>
        rcases pr with ⟨r2, res⟩
        right
        refine ⟨is, r2, res, hk, rfl, hw, ?_⟩
        unfold Trie.removeP
        rw [if_neg (by simp [hk])]
        simp only [hpi, hw]
  · left
    unfold Trie.removeP
    rw [if_pos (by simp [hk])]

theorem getP_cases (t : Trie α) (p : List Nat) :
    ((t.kind ≠ TrieKind.kPathTrie ∨ pathToIndices p = none) ∧ t.getP p = (t, none))
    ∨ (∃ is, t.kind = TrieKind.kPathTrie ∧ pathToIndices p = some is
        ∧ walk 65 (getT (α := α)) t.root is = none ∧ t.getP p = (t, none))
    ∨ (∃ is r2 val, t.kind = TrieKind.kPathTrie ∧ pathToIndices p = some is
        ∧ walk 65 (getT (α := α)) t.root is = some (r2, val)
        ∧ t.getP p = ({ t with root := r2 }, val)) := by
  by_cases hk : t.kind = TrieKind.kPathTrie
  · cases hpi : pathToIndices p with
    | none =>
      left
      refine ⟨Or.inr rfl, ?_⟩
      unfold Trie.getP
      rw [if_neg (by simp [hk])]
      simp only [hpi]
    | some is =>
      cases hw : walk 65 (getT (α := α)) t.root is with
      | none =>
        right; left
        refine ⟨is, hk, rfl, hw, ?_⟩
        unfold Trie.getP
        rw [if_neg (by simp [hk])]
        simp only [hpi, hw]
      | some pr =>
        rcases pr with ⟨r2, val⟩
        right; right
        refine ⟨is, r2, val, hk, rfl, hw, ?_⟩
        unfold Trie.getP
        rw [if_neg (by simp [hk])]
        simp only [hpi, hw]
  · left
    refine ⟨Or.inl hk, ?_⟩
    unfold Trie.getP
    rw [if_pos (by simp [hk])]

theorem getOrAddP_cases (t : Trie α) (p : List Nat) (fv : α) :
    ((t.kind ≠ TrieKind.kPathTrie ∨ pathToIndices p = none) ∧ t.getOrAddP p fv = (t, none))
    ∨ (∃ is, t.kind = TrieKind.kPathTrie ∧ pathToIndices p = some is
        ∧ walk 65 (getOrAddT fv) t.root is = none ∧ t.getOrAddP p fv = (t, none))
    ∨ (∃ is r2 res x, t.kind = TrieKind.kPathTrie ∧ pathToIndices p = some is
        ∧ walk 65 (getOrAddT fv) t.root is = some (r2, (res, x))
        ∧ t.getOrAddP p fv = (Trie.applyResult { t with root := r2 } res, some x)) := by
  by_cases hk : t.kind = TrieKind.kPathTrie
  · cases hpi : pathToIndices p with
    | none =>
      left
      refine ⟨Or.inr rfl, ?_⟩
      unfold Trie.getOrAddP
      rw [if_neg (by simp [hk])]
      simp only [hpi]
    | some is =>
      cases hw : walk 65 (getOrAddT fv) t.root is with
      | none =>
        right; left
        refine ⟨is, hk, rfl, hw, ?_⟩
        unfold Trie.getOrAddP
        rw [if_neg (by simp [hk])]
        simp only [hpi, hw]
      | some pr =>
        rcases pr with ⟨r2, res, x⟩
        right; right
        refine ⟨is, r2, res, x, hk, rfl, hw, ?_⟩
        unfold Trie.getOrAddP
        rw [if_neg (by simp [hk])]
        simp only [hpi, hw]
  · left
    refine ⟨Or.inl hk, ?_⟩
    unfold Trie.getOrAddP
    rw [if_pos (by simp [hk])]

/-! ### Case folding -/

theorem toupperByte_idem (c : Nat) : toupperByte (toupperByte c) = toupperByte c := by
  by_cases h : 97 ≤ c ∧ c ≤ 122
  · have h1 : toupperByte c = c - 32 := if_pos h
    rw [h1]
    exact if_neg (by omega)
  · have h1 : toupperByte c = c := if_neg h
    rw [h1]
    exact h1

theorem pathIdx_congr {c d : Nat} (h : toupperByte c = toupperByte d) :
    pathIdx c = pathIdx d := by
  simp only [pathIdx, h]

theorem pathToIndices_congr :
    ∀ {p q : List Nat}, p.map toupperByte = q.map toupperByte →
      pathToIndices p = pathToIndices q := by
  intro p
  induction p with
  | nil =>
    intro q h
    have : q = [] := by
      cases q with
      | nil => rfl
      | cons d qs => simp at h
    rw [this]
  | cons c cs ih =>
    intro q h
    cases q with
    | nil => simp at h
    | cons d qs =>
      simp only [List.map_cons, List.cons.injEq] at h
      rw [pathToIndices, pathToIndices, pathIdx_congr h.1, ih h.2]

/-! ### Projections of the size/notification update -/

theorem applyResult_root (t : Trie α) (res : TrieResult) :
    (t.applyResult res).root = t.root := by
  cases res <;> rfl

theorem applyResult_kind (t : Trie α) (res : TrieResult) :
    (t.applyResult res).kind = t.kind := by
  cases res <;> rfl

theorem applyResult_inserted (t : Trie α) :
    t.applyResult TrieResult.inserted
      = { t with size := t.size + 1, events := t.events ++ [(t.size, t.size + 1)] } := by
  simp [Trie.applyResult, Trie.setSize]

theorem applyResult_removed_of_pos (t : Trie α) (h : 0 < t.size) :
    t.applyResult TrieResult.removed
      = { t with size := t.size - 1, events := t.events ++ [(t.size, t.size - 1)] } := by
  have : t.size ≠ t.size - 1 := by omega
  simp [Trie.applyResult, Trie.setSize, this]

theorem applyResult_other (t : Trie α) (res : TrieResult)
    (h1 : res ≠ TrieResult.inserted) (h2 : res ≠ TrieResult.removed) :
    t.applyResult res = t := by
  cases res <;> first | rfl | exact absurd rfl h1 | exact absurd rfl h2

/-- Claim C9: path keys are matched case-insensitively — two paths equal up to
ASCII case address the same entry: they `get` the same value in any trie, and
after a value is freshly inserted under one spelling, `get` under the other
spelling returns it (`insert("/Foo/BAR", v)` then `get("/foo/bar")` gives `v`;
see the witness). -/
theorem trie_path_case_insensitive {α : Type} (t : Trie α) (p q : List Nat) (v : α)
    (hcase : p.map toupperByte = q.map toupperByte) :
    (t.getP p).2 = (t.getP q).2
    ∧ ((t.insertP p v).2 = TrieResult.inserted → ((t.insertP p v).1.getP q).2 = some v) := by
  have hidx : pathToIndices p = pathToIndices q := pathToIndices_congr hcase
  constructor
  · rw [Trie.getP, Trie.getP, hidx]
  · intro hins
    rcases insertP_cases t p v with hfail | ⟨is, r2, res, hk, hpi, hw, heq⟩
    · rw [hfail] at hins; cases hins
    · rw [heq] at hins
      have hres : res = TrieResult.inserted := hins
      subst hres
      rw [heq]
      set t1 : Trie α := Trie.applyResult { t with root := r2 } TrieResult.inserted with ht1
      have hk1 : t1.kind = TrieKind.kPathTrie := by
        rw [ht1, applyResult_kind]; exact hk
      have hr1 : t1.root = r2 := by rw [ht1, applyResult_root]
      have hqi : pathToIndices q = some is := by rw [← hidx, hpi]
      have hcw : canWalk 65 r2 is = true :=
        walk_preserves_canWalk 65 (insertT v) is t.root r2 TrieResult.inserted hw
      rcases getP_cases t1 q with ⟨hbad, _⟩ | ⟨is2, _, hqi2, hwnone, _⟩ |
          ⟨is2, r3, val, _, hqi2, hw2, heq2⟩
      · rcases hbad with hbad | hbad
        · exact absurd hk1 hbad
        · rw [hqi] at hbad; cases hbad
      · rw [hqi] at hqi2
        cases hqi2
        have hsome : (walk 65 (getT (α := α)) t1.root is).isSome = true := by
          rw [walk_isSome_eq_canWalk, hr1]; exact hcw
        rw [hwnone] at hsome; cases hsome
      · rw [hqi] at hqi2
        cases hqi2
        rw [heq2]
        have hfind := walk_getT_find 65 is t1.root r3 val hw2
        have hinsf := walk_insertT_find 65 v is t.root r2 TrieResult.inserted hw
        rcases hinsf with ⟨_, _, hf2⟩ | ⟨w, hres, _, _⟩
        · show val = some v
          rw [hfind.1, hr1, hf2]
        · cases hres

theorem trie_path_case_insensitive_witness :
    ((Trie.createPathTrie Nat).getP [47, 70, 111, 111, 47, 66, 65, 82]).2
      = ((Trie.createPathTrie Nat).getP [47, 102, 111, 111, 47, 98, 97, 114]).2
    ∧ (((Trie.createPathTrie Nat).insertP [47, 70, 111, 111, 47, 66, 65, 82] 7).2
          = TrieResult.inserted →
        (((Trie.createPathTrie Nat).insertP [47, 70, 111, 111, 47, 66, 65, 82] 7).1.getP
            [47, 102, 111, 111, 47, 98, 97, 114]).2 = some 7) :=
  trie_path_case_insensitive (Trie.createPathTrie Nat)
    [47, 70, 111, 111, 47, 66, 65, 82] [47, 102, 111, 111, 47, 98, 97, 114] 7 (by decide)

/-- Claim C8: `getOrAdd` is idempotent per key.  If a value is already
associated with the key, `getOrAdd` returns that existing value — the factory's
product is not stored and the key still maps to the existing value afterwards.
Consequently two consecutive `getOrAdd` calls on the same key, with different
factories, return the same value. -/
theorem trie_getOrAdd_idempotent {α : Type} (t : Trie α) (p : List Nat) (f1 f2 : α) :
    ((t.getOrAddP p f1).1.getOrAddP p f2).2 = (t.getOrAddP p f1).2
    ∧ (∀ v, (t.getP p).2 = some v →
        (t.getOrAddP p f1).2 = some v ∧ ((t.getOrAddP p f1).1.getP p).2 = some v) := by
  rcases getOrAddP_cases t p f1 with ⟨hbad, heq⟩ | ⟨is, hk, hpi, hwnone, heq⟩ |
      ⟨is, r2, res, x, hk, hpi, hw, heq⟩
  · -- kind mismatch or unrepresentable key: both calls are no-ops returning none
    constructor
    · rw [heq]
      show (t.getOrAddP p f2).2 = none
      rcases getOrAddP_cases t p f2 with ⟨_, heq2⟩ | ⟨is, hk, hpi, _, _⟩ |
          ⟨is, r2, res, x, hk, hpi, _, _⟩
      · rw [heq2]
      · rcases hbad with hbad | hbad
        · exact absurd hk hbad
        · rw [hpi] at hbad; cases hbad
      · rcases hbad with hbad | hbad
        · exact absurd hk hbad
        · rw [hpi] at hbad; cases hbad
    · intro v hv
      rcases getP_cases t p with ⟨_, hg⟩ | ⟨is, hk, hpi, _, hg⟩ | ⟨is, r2, val, hk, hpi, hw, hg⟩
      · rw [hg] at hv; cases hv
      · rcases hbad with hbad | hbad
        · exact absurd hk hbad
        · rw [hpi] at hbad; cases hbad
      · rcases hbad with hbad | hbad
        · exact absurd hk hbad
        · rw [hpi] at hbad; cases hbad
  · -- traversal fails (possible only on a malformed children array): the first
    -- call is a no-op and the second fails identically
    have hcw : canWalk 65 t.root is = false := by
      have := walk_isSome_eq_canWalk 65 (getOrAddT f1) is t.root
      rw [hwnone] at this
      exact this.symm
    constructor
    · rw [heq]
      show (t.getOrAddP p f2).2 = none
      rcases getOrAddP_cases t p f2 with ⟨_, heq2⟩ | ⟨is2, hk2, hpi2, _, heq2⟩ |
          ⟨is2, r2, res, x, hk2, hpi2, hw2, _⟩
      · rw [heq2]
      · rw [heq2]
      · rw [hpi] at hpi2
        cases hpi2
        have hsome : (walk 65 (getOrAddT f2) t.root is).isSome = true := by
          rw [hw2]; rfl
        rw [walk_isSome_eq_canWalk, hcw] at hsome
        cases hsome
    · intro v hv
      rcases getP_cases t p with ⟨_, hg⟩ | ⟨is2, hk2, hpi2, _, hg⟩ |
          ⟨is2, r2, val, hk2, hpi2, hw2, hg⟩
      · rw [hg] at hv; cases hv
      · rw [hg] at hv; cases hv
      · rw [hpi] at hpi2
        cases hpi2
        have hsome : (walk 65 (getT (α := α)) t.root is).isSome = true := by
          rw [hw2]; rfl
        rw [walk_isSome_eq_canWalk, hcw] at hsome
        cases hsome
  · -- success: the first call leaves `some x` at the key, the second returns it
    have hfind := walk_getOrAddT_find 65 f1 is t.root r2 res x hw
    have hr1 : (Trie.applyResult { t with root := r2 } res).root = r2 := applyResult_root _ _
    have hk1 : (Trie.applyResult { t with root := r2 } res).kind = t.kind := applyResult_kind _ _
    have hcw : canWalk 65 r2 is = true :=
      walk_preserves_canWalk 65 (getOrAddT f1) is t.root r2 (res, x) hw
    constructor
    · rw [heq]
      rcases getOrAddP_cases (Trie.applyResult { t with root := r2 } res) p f2 with
          ⟨hbad, heq2⟩ | ⟨is2, hk2, hpi2, hwnone2, heq2⟩ |
          ⟨is2, r3, res2, x2, hk2, hpi2, hw2, heq2⟩
      · rcases hbad with hbad | hbad
        · rw [hk1] at hbad; exact absurd hk hbad
        · rw [hpi] at hbad; cases hbad
      · rw [hpi] at hpi2
        cases hpi2
        have hsome : (walk 65 (getOrAddT f2) (Trie.applyResult { t with root := r2 } res).root
            is).isSome = true := by
          rw [walk_isSome_eq_canWalk, hr1]; exact hcw
        rw [hwnone2] at hsome; cases hsome
      · rw [hpi] at hpi2
        cases hpi2
        rw [heq2]
        have hfind2 := walk_getOrAddT_find 65 f2 is
          (Trie.applyResult { t with root := r2 } res).root r3 res2 x2 hw2
        rcases hfind2.2 with ⟨hfx, _⟩ | ⟨hfn, _, _⟩
        · rw [hr1, hfind.1] at hfx
          cases hfx
          rfl
        · rw [hr1, hfind.1] at hfn
          cases hfn
    · intro v hv
      rcases getP_cases t p with ⟨hbad, hg⟩ | ⟨is2, hk2, hpi2, _, hg⟩ |
          ⟨is2, r3, val, hk2, hpi2, hw2, hg⟩
      · rw [hg] at hv; cases hv
      · rw [hg] at hv; cases hv
      · rw [hpi] at hpi2
        cases hpi2
        rw [hg] at hv
        simp only at hv
        have hgf := walk_getT_find 65 is t.root r3 val hw2
        have hroot : t.root.find is = some v := by rw [← hgf.1, hv]
        have hxv : x = v := by
          rcases hfind.2 with ⟨hfx, _⟩ | ⟨hfn, _, _⟩
          · rw [hroot] at hfx
            exact (Option.some.injEq _ _ ▸ hfx).symm
          · rw [hroot] at hfn
            cases hfn
        subst hxv
        constructor
        · rw [heq]
        · rw [heq]
          rcases getP_cases (Trie.applyResult { t with root := r2 } res) p with
              ⟨hbad3, hg3⟩ | ⟨is3, hk3, hpi3, hwnone3, hg3⟩ |
              ⟨is3, r4, val4, hk3, hpi3, hw3, hg3⟩
          · rcases hbad3 with hbad3 | hbad3
            · rw [hk1] at hbad3; exact absurd hk hbad3
            · rw [hpi] at hbad3; cases hbad3
          · rw [hpi] at hpi3
            cases hpi3
            have hsome : (walk 65 (getT (α := α))
                (Trie.applyResult { t with root := r2 } res).root is).isSome = true := by
              rw [walk_isSome_eq_canWalk, hr1]; exact hcw
            rw [hwnone3] at hsome; cases hsome
          · rw [hpi] at hpi3
            cases hpi3
            have hgf3 := walk_getT_find 65 is
              (Trie.applyResult { t with root := r2 } res).root r4 val4 hw3
            have hval4 : val4 = some x := by rw [hgf3.1, hr1, hfind.1]
            rw [hg3]
            exact hval4

theorem trie_getOrAdd_idempotent_witness :
    (((Trie.createPathTrie Nat).getOrAddP [65] 3).1.getOrAddP [65] 9).2
      = ((Trie.createPathTrie Nat).getOrAddP [65] 3).2
    ∧ (∀ v, ((Trie.createPathTrie Nat).getP [65]).2 = some v →
        ((Trie.createPathTrie Nat).getOrAddP [65] 3).2 = some v
        ∧ (((Trie.createPathTrie Nat).getOrAddP [65] 3).1.getP [65]).2 = some v) :=
  trie_getOrAdd_idempotent (Trie.createPathTrie Nat) [65] 3 9

/-! ### Sentinel counting -/

theorem sentinelCount_mk (r : Option α) (cs : List (Option (Node α))) :
    (Node.mk r cs).sentinelCount = (if r.isSome then 1 else 0) + scList cs := by
  rw [Node.sentinelCount]

theorem scList_replicate (k : Nat) :
    scList (List.replicate k (none : Option (Node α))) = 0 := by
  induction k with
  | zero => rfl
  | succ k ih => rw [List.replicate_succ, scList, scOpt, ih]

theorem sentinelCount_empty (fanout : Nat) :
    (Node.empty fanout : Node α).sentinelCount = 0 := by
  rw [Node.empty, sentinelCount_mk, scList_replicate]
  rfl

theorem scOpt_getD (c : Option (Node α)) (fanout : Nat) :
    (c.getD (Node.empty fanout)).sentinelCount = scOpt c := by
  cases c with
  | none => exact sentinelCount_empty fanout
  | some n => rfl

theorem scList_set :
    ∀ (cs : List (Option (Node α))) (i : Nat) (x : Option (Node α)) (h : i < cs.length),
      scList (cs.set i x) + scOpt (cs[i]) = scList cs + scOpt x := by
  intro cs
  induction cs with
  | nil => intro i x h; cases h
  | cons c rest ih =>
    intro i x h
    cases i with
    | zero =>
      rw [List.set_cons_zero, scList, scList]
      simp only [List.getElem_cons_zero]
      omega
    | succ j =>
      rw [List.set_cons_succ, scList, scList]
      simp only [List.getElem_cons_succ]
      have hj : j < rest.length := by simpa using h
      have := ih j x hj
      omega

/-- Each node-level terminal operation changes the sentinel count of the
terminal node by a delta determined by its result; `walk` propagates that delta
to the whole tree. -/
theorem walk_sentinelCount (fanout : Nat) (f : Node α → Node α × β) (d : β → Int)
    (hf : ∀ n : Node α, ((f n).1.sentinelCount : Int) = n.sentinelCount + d (f n).2) :
    ∀ (is : List Nat) (n n2 : Node α) (b : β),
      walk fanout f n is = some (n2, b) →
      (n2.sentinelCount : Int) = n.sentinelCount + d b := by
  intro is
  induction is with
  | nil =>
    intro n n2 b hw
    rw [walk] at hw
    have := hf n
    cases hfn : f n with
    | mk n3 b3 =>
      rw [hfn] at hw this
      cases hw
      exact this
  | cons i is ih =>
    intro n n2 b hw
    cases n with
    | mk r cs =>
      rw [walk] at hw
      by_cases h : i < cs.length
      · simp only [h, dif_pos] at hw
        cases hw2 : walk fanout f ((cs[i]).getD (Node.empty fanout)) is with
        | none => rw [hw2] at hw; cases hw
        | some p =>
          cases p with
          | mk c2 b2 =>
            rw [hw2] at hw
            cases hw
            have hdelta := ih _ _ _ hw2
            rw [scOpt_getD] at hdelta
            have hset := scList_set cs i (some c2) h
            rw [sentinelCount_mk, sentinelCount_mk]
            have hsc : scOpt (some c2) = c2.sentinelCount := rfl
            rw [hsc] at hset
            omega
      · simp [h] at hw

theorem insertT_delta (v : α) (n : Node α) :
    (((insertT v n).1.sentinelCount : Int))
      = n.sentinelCount
        + (if (insertT v n).2 = TrieResult.inserted then (1 : Int) else 0) := by
  cases n with
  | mk r cs =>
    cases r <;> simp [insertT, sentinelCount_mk] <;> omega

theorem replaceT_delta (v : α) (n : Node α) :
    (((replaceT v n).1.sentinelCount : Int))
      = n.sentinelCount
        + (if (replaceT v n).2 = TrieResult.inserted then (1 : Int) else 0) := by
  cases n with
  | mk r cs =>
    cases r <;> simp [replaceT, sentinelCount_mk] <;> omega

theorem removeT_delta (n : Node α) :
    (((removeT n).1.sentinelCount : Int))
      = n.sentinelCount
        + (if (removeT n).2 = TrieResult.removed then (-1 : Int) else 0) := by
  cases n with
  | mk r cs =>
    cases r <;> simp [removeT, sentinelCount_mk] <;> omega

theorem getOrAddT_delta (fv : α) (n : Node α) :
    (((getOrAddT fv n).1.sentinelCount : Int))
      = n.sentinelCount
        + (if (getOrAddT fv n).2.1 = TrieResult.inserted then (1 : Int) else 0) := by
  cases n with
  | mk r cs =>
    cases r <;> simp [getOrAddT, sentinelCount_mk] <;> omega

theorem insertT_res (v : α) (n : Node α) :
    (insertT v n).2 = TrieResult.inserted ∨ (insertT v n).2 = TrieResult.alreadyExists := by
  cases n with
  | mk r cs => cases r <;> simp [insertT]

theorem replaceT_res (v : α) (n : Node α) :
    (replaceT v n).2 = TrieResult.inserted ∨ (replaceT v n).2 = TrieResult.replaced := by
  cases n with
  | mk r cs => cases r <;> simp [replaceT]

theorem removeT_res (n : Node α) :
    (removeT n).2 = TrieResult.removed ∨ (removeT n).2 = TrieResult.alreadyEmpty := by
  cases n with
  | mk r cs => cases r <;> simp [removeT]

theorem getOrAddT_res (fv : α) (n : Node α) :
    (getOrAddT fv n).2.1 = TrieResult.inserted
    ∨ (getOrAddT fv n).2.1 = TrieResult.alreadyExists := by
  cases n with
  | mk r cs => cases r <;> simp [getOrAddT]

/-- Claim C7 counterexample: on an empty path trie, `replace` of a fresh key
stores the value and CHANGES the live-entry counter from 0 to 1 (result
`inserted`), refuting "replace leaves it unchanged". -/
theorem trie_replace_increments_counterexample :
    ((Trie.createPathTrie Nat).replaceP [65] 7).2 = TrieResult.inserted
    ∧ ((Trie.createPathTrie Nat).replaceP [65] 7).1.getCount = 1
    ∧ (Trie.createPathTrie Nat).getCount = 0 := by decide

/-- Claim C7 (amended): the live-entry counter always equals the number of
sentinel nodes reachable from the root, `count()` returns it, every insert
that stores a value increments it, every remove that deletes a value
decrements it, replace leaves it unchanged when it replaces an existing value
and increments it when it stores into an empty slot (result `inserted`), and
whenever the counter changes the registered change-notification callback is
invoked with the old and new counts. -/
theorem trie_size_invariant {α : Type} (t : Trie α) (p : List Nat) (v fv : α)
    (hinv : t.size = t.root.sentinelCount) :
    t.getCount = t.size
    ∧ ((t.insertP p v).1.size = (t.insertP p v).1.root.sentinelCount
       ∧ ((t.insertP p v).2 = TrieResult.inserted →
            (t.insertP p v).1.size = t.size + 1
            ∧ (t.insertP p v).1.events = t.events ++ [(t.size, t.size + 1)])
       ∧ ((t.insertP p v).2 ≠ TrieResult.inserted →
            (t.insertP p v).1.size = t.size ∧ (t.insertP p v).1.events = t.events))
    ∧ ((t.removeP p).1.size = (t.removeP p).1.root.sentinelCount
       ∧ ((t.removeP p).2 = TrieResult.removed →
            (t.removeP p).1.size + 1 = t.size
            ∧ (t.removeP p).1.events = t.events ++ [(t.size, t.size - 1)])
       ∧ ((t.removeP p).2 ≠ TrieResult.removed →
            (t.removeP p).1.size = t.size ∧ (t.removeP p).1.events = t.events))
    ∧ ((t.replaceP p v).1.size = (t.replaceP p v).1.root.sentinelCount
       ∧ ((t.replaceP p v).2 = TrieResult.replaced →
            (t.replaceP p v).1.size = t.size ∧ (t.replaceP p v).1.events = t.events)
       ∧ ((t.replaceP p v).2 = TrieResult.inserted →
            (t.replaceP p v).1.size = t.size + 1
            ∧ (t.replaceP p v).1.events = t.events ++ [(t.size, t.size + 1)]))
    ∧ (t.getOrAddP p fv).1.size = (t.getOrAddP p fv).1.root.sentinelCount := by
  refine ⟨rfl, ?_, ?_, ?_, ?_⟩
  · -- insert
    rcases insertP_cases t p v with heq | ⟨is, r2, res, hk, hpi, hw, heq⟩
    · rw [heq]
      refine ⟨hinv, fun h => ?_, fun _ => ⟨rfl, rfl⟩⟩
      simp at h
    · have hres := walk_res_prop 65 (insertT v)
        (fun r => r = TrieResult.inserted ∨ r = TrieResult.alreadyExists)
        (insertT_res v) is t.root r2 res hw
      have hdelta := walk_sentinelCount 65 (insertT v)
        (fun r => if r = TrieResult.inserted then (1 : Int) else 0)
        (insertT_delta v) is t.root r2 res hw
      rcases hres with hres | hres <;> subst hres <;> simp at hdelta
      · rw [heq, applyResult_inserted]
        refine ⟨?_, fun _ => ⟨rfl, rfl⟩, fun h => absurd rfl h⟩
        show t.size + 1 = r2.sentinelCount
        omega
      · rw [heq, applyResult_other _ _ (by decide) (by decide)]
        refine ⟨?_, fun h => ?_, fun _ => ⟨rfl, rfl⟩⟩
        · show t.size = r2.sentinelCount
          omega
        · simp at h
  · -- remove
    rcases removeP_cases t p with heq | ⟨is, r2, res, hk, hpi, hw, heq⟩
    · rw [heq]
      refine ⟨hinv, fun h => ?_, fun _ => ⟨rfl, rfl⟩⟩
      simp at h
    · have hres := walk_res_prop 65 removeT
        (fun r => r = TrieResult.removed ∨ r = TrieResult.alreadyEmpty)
        (fun n => removeT_res n) is t.root r2 res hw
      have hdelta := walk_sentinelCount 65 removeT
        (fun r => if r = TrieResult.removed then (-1 : Int) else 0)
        (fun n => removeT_delta n) is t.root r2 res hw
      rcases hres with hres | hres <;> subst hres <;> simp at hdelta
      · have hpos : 0 < t.size := by omega
        have hpos2 : 0 < ({ t with root := r2 } : Trie α).size := hpos
        have happ := applyResult_removed_of_pos { t with root := r2 } hpos2
        rw [heq, happ]
        refine ⟨?_, fun _ => ⟨?_, rfl⟩, fun h => absurd rfl h⟩
        · show t.size - 1 = r2.sentinelCount
          omega
        · show t.size - 1 + 1 = t.size
          omega
      · rw [heq, applyResult_other _ _ (by decide) (by decide)]
        refine ⟨?_, fun h => ?_, fun _ => ⟨rfl, rfl⟩⟩
        · show t.size = r2.sentinelCount
          omega
        · simp at h
  · -- replace
    rcases replaceP_cases t p v with heq | ⟨is, r2, res, hk, hpi, hw, heq⟩
    · rw [heq]
      refine ⟨hinv, fun _ => ⟨rfl, rfl⟩, fun h => ?_⟩
      simp at h
    · have hres := walk_res_prop 65 (replaceT v)
        (fun r => r = TrieResult.inserted ∨ r = TrieResult.replaced)
        (replaceT_res v) is t.root r2 res hw
      have hdelta := walk_sentinelCount 65 (replaceT v)
        (fun r => if r = TrieResult.inserted then (1 : Int) else 0)
        (replaceT_delta v) is t.root r2 res hw
      rcases hres with hres | hres <;> subst hres <;> simp at hdelta
      · rw [heq, applyResult_inserted]
        refine ⟨?_, fun h => ?_, fun _ => ⟨rfl, rfl⟩⟩
        · show t.size + 1 = r2.sentinelCount
          omega
        · simp at h
      · rw [heq, applyResult_other _ _ (by decide) (by decide)]
        refine ⟨?_, fun _ => ⟨rfl, rfl⟩, fun h => ?_⟩
        · show t.size = r2.sentinelCount
          omega
        · simp at h
  · -- getOrAdd
    rcases getOrAddP_cases t p fv with ⟨_, heq⟩ | ⟨is, _, _, _, heq⟩ |
        ⟨is, r2, res, x, hk, hpi, hw, heq⟩
    · rw [heq]; exact hinv
    · rw [heq]; exact hinv
    · have hres := walk_res_prop 65 (getOrAddT fv)
        (fun rx : TrieResult × α =>
          rx.1 = TrieResult.inserted ∨ rx.1 = TrieResult.alreadyExists)
        (getOrAddT_res fv) is t.root r2 (res, x) hw
      have hdelta := walk_sentinelCount 65 (getOrAddT fv)
        (fun rx : TrieResult × α => if rx.1 = TrieResult.inserted then (1 : Int) else 0)
        (getOrAddT_delta fv) is t.root r2 (res, x) hw
      simp only at hres
      rcases hres with hres | hres <;> subst hres <;> simp at hdelta
      · rw [heq, applyResult_inserted]
        show t.size + 1 = r2.sentinelCount
        omega
      · rw [heq, applyResult_other _ _ (by decide) (by decide)]
        show t.size = r2.sentinelCount
        omega

theorem trie_size_invariant_witness :
    (Trie.createPathTrie Nat).size = (Trie.createPathTrie Nat).root.sentinelCount
    ∧ ((Trie.createPathTrie Nat).insertP [65] 7).1.size
        = ((Trie.createPathTrie Nat).insertP [65] 7).1.root.sentinelCount
    ∧ (((Trie.createPathTrie Nat).insertP [65] 7).2 = TrieResult.inserted →
        ((Trie.createPathTrie Nat).insertP [65] 7).1.size = (Trie.createPathTrie Nat).size + 1
        ∧ ((Trie.createPathTrie Nat).insertP [65] 7).1.events
            = (Trie.createPathTrie Nat).events
              ++ [((Trie.createPathTrie Nat).size, (Trie.createPathTrie Nat).size + 1)]) :=
  ⟨by decide,
   (trie_size_invariant (Trie.createPathTrie Nat) [65] 7 3 (by decide)).2.1.1,
   (trie_size_invariant (Trie.createPathTrie Nat) [65] 7 3 (by decide)).2.1.2.1⟩

/-! ### Tracker helper lemmas -/

theorem getD_set_self (l : List γ) (r : Nat) (x d : γ) (h : r < l.length) :
    (l.set r x).getD r d = x := by
  rw [List.getD_eq_getElem?_getD, List.getElem?_set_self h]
  rfl

theorem getD_set_ne (l : List γ) (r j : Nat) (x d : γ) (h : r ≠ j) :
    (l.set r x).getD j d = l.getD j d := by
  rw [List.getD_eq_getElem?_getD, List.getElem?_set_ne h, ← List.getD_eq_getElem?_getD]

/-- Claim C3 counterexample: an already-tracked child whose pip id differs from
the intended root's (pip 1 vs pip 2) but whose owning client agrees (client 5):
the claim says a data-consistency error is logged, but `TrackChildProcess`
logs only when BOTH ids differ (`&&` at BuildXLSandbox.cpp, lines 314–315), so
no error is recorded. -/
theorem trackChild_mismatch_not_logged :
    ((⟨[(101, 0)], [⟨5, 101, 1, 1⟩, ⟨5, 100, 2, 1⟩], [], [], []⟩ : SandboxState).ent 0).pipId
      ≠ ((⟨[(101, 0)], [⟨5, 101, 1, 1⟩, ⟨5, 100, 2, 1⟩], [], [], []⟩ : SandboxState).ent 1).pipId
    ∧ (TrackChildProcess ⟨[(101, 0)], [⟨5, 101, 1, 1⟩, ⟨5, 100, 2, 1⟩], [], [], []⟩
         101 1).1.consistencyErrors = [] := by
  decide

/-- Claim C3 (amended): `trackChild` on an already-tracked child pid is a
no-op returning failure — the dictionary, every entity (hence every live-child
count), and the completion log are unchanged — and the data-consistency error
is logged exactly when the existing entity's pip id AND owning client pid both
differ from the intended root's; the existing entry wins and the trees are
never merged. -/
theorem trackChild_already_tracked_noop (s : SandboxState) (childPid : Int) (r exRef : Nat)
    (hex : s.getProcess childPid = some exRef) :
    (TrackChildProcess s childPid r).2 = false
    ∧ (TrackChildProcess s childPid r).1.trackedProcesses = s.trackedProcesses
    ∧ (TrackChildProcess s childPid r).1.processes = s.processes
    ∧ (TrackChildProcess s childPid r).1.completions = s.completions
    ∧ (TrackChildProcess s childPid r).1.consistencyErrors
        = s.consistencyErrors
          ++ (if (s.ent exRef).pipId ≠ (s.ent r).pipId
                ∧ (s.ent exRef).clientPid ≠ (s.ent r).clientPid
              then [childPid] else []) := by
  unfold TrackChildProcess
  rw [hex]
  by_cases hc : (s.ent exRef).pipId ≠ (s.ent r).pipId
      ∧ (s.ent exRef).clientPid ≠ (s.ent r).clientPid
  · simp [hc]
  · simp [hc]

theorem trackChild_already_tracked_noop_witness :
    (TrackChildProcess ⟨[(101, 0)], [⟨5, 101, 1, 1⟩, ⟨6, 100, 2, 1⟩], [], [], []⟩ 101 1).2
        = false
    ∧ (TrackChildProcess ⟨[(101, 0)], [⟨5, 101, 1, 1⟩, ⟨6, 100, 2, 1⟩], [], [], []⟩
         101 1).1.trackedProcesses = [(101, 0)]
    ∧ (TrackChildProcess ⟨[(101, 0)], [⟨5, 101, 1, 1⟩, ⟨6, 100, 2, 1⟩], [], [], []⟩
         101 1).1.consistencyErrors = [] ++ [101] := by
  have h := trackChild_already_tracked_noop
    ⟨[(101, 0)], [⟨5, 101, 1, 1⟩, ⟨6, 100, 2, 1⟩], [], [], []⟩ 101 1 0 (by decide)
  refine ⟨h.1, h.2.1, ?_⟩
  rw [h.2.2.2.2]
  decide

/-- Claim C2 (code bug): `FreeReportQueuesForClientProcess(50)` on a tracker
holding one entity (pid 100, owned by client 50, mapped under key 100) leaves
the entity tracked: the cleanup callback calls `removeProcess(ctxPid)` with
the CLIENT pid 50 (BuildXLSandbox.cpp, line 231) instead of the tracked
process's pid 100, so the removal never finds the entry. -/
theorem freeQueues_leaves_owned_entity_tracked :
    (FreeReportQueuesForClientProcess
        ⟨[(100, 0)], [⟨50, 100, 1, 1⟩], [50], [], []⟩ 50).1.trackedProcesses = [(100, 0)]
    ∧ ((⟨[(100, 0)], [⟨50, 100, 1, 1⟩], [50], [], []⟩ : SandboxState).ent 0).clientPid = 50
    ∧ (FreeReportQueuesForClientProcess
        ⟨[(100, 0)], [⟨50, 100, 1, 1⟩], [50], [], []⟩ 50).1.reportQueues = [] := by
  decide

/-- Claim C1 counterexample: with the live-child count initialized to 0 at
creation, exactly as the claim (and spec §3) states, the end-to-end scenario
root pid=100 with children 101 and 102 fires tree completion already on the
SECOND untrack call (after untracking 101 and 102), not on the third —
refuting "fires completion exactly on the third call and never earlier". -/
theorem processTree_completion_initZero_counterexample :
    (untrackRun (trackChildRun (TrackRootProcess (SandboxState.initial
        [ProcessObject.createSpec 10 100 7]) 0).1 [101, 102] 0) [101]).completions = []
    ∧ (untrackRun (trackChildRun (TrackRootProcess (SandboxState.initial
        [ProcessObject.createSpec 10 100 7]) 0).1 [101, 102] 0) [101, 102]).completions
        = [0] := by
  decide

theorem find?_isSome_of_getProcess {s : SandboxState} {pid : Int} {r : Nat}
    (hg : s.getProcess pid = some r) :
    (s.trackedProcesses.find? (fun e => e.1 = pid)).isSome = true := by
  unfold SandboxState.getProcess at hg
  cases hf : s.trackedProcesses.find? (fun e => e.1 = pid) with
  | none => rw [hf] at hg; cases hg
  | some e => rfl

/-- What `UntrackProcess(pid, ProcessObject*)` does when the mapping exists:
removes the pid's mapping, decrements the entity's count through the shared
reference, fires completion exactly when the decremented count is zero, and
touches nothing else (in particular every entity's identity fields are
preserved). -/
theorem untrackWith_spec (s : SandboxState) (pid : Int) (r : Nat)
    (hfind : (s.trackedProcesses.find? (fun e => e.1 = pid)).isSome = true)
    (hrlen : r < s.processes.length) :
    (UntrackProcessWith s pid r).trackedProcesses = removeMapping s.trackedProcesses pid
    ∧ (UntrackProcessWith s pid r).processes
        = s.processes.set r
            { s.ent r with processTreeCount := (s.ent r).processTreeCount - 1 }
    ∧ ((UntrackProcessWith s pid r).ent r).processTreeCount
        = (s.ent r).processTreeCount - 1
    ∧ (∀ j : Nat, ((UntrackProcessWith s pid r).ent j).processId = (s.ent j).processId
        ∧ ((UntrackProcessWith s pid r).ent j).clientPid = (s.ent j).clientPid
        ∧ ((UntrackProcessWith s pid r).ent j).pipId = (s.ent j).pipId)
    ∧ (UntrackProcessWith s pid r).completions
        = s.completions ++ (if (s.ent r).processTreeCount - 1 = 0 then [r] else [])
    ∧ (UntrackProcessWith s pid r).reportQueues = s.reportQueues
    ∧ (UntrackProcessWith s pid r).consistencyErrors = s.consistencyErrors := by
  have hrm : s.removeProcess pid
      = ({ s with trackedProcesses := removeMapping s.trackedProcesses pid }, true) := by
    unfold SandboxState.removeProcess
    rw [if_pos hfind]
  have hub : UntrackProcessWith s pid r
      = (if (SandboxState.decrementTreeCount
              { s with trackedProcesses := removeMapping s.trackedProcesses pid }
              r).hasEmptyProcessTree r
         then { SandboxState.decrementTreeCount
                  { s with trackedProcesses := removeMapping s.trackedProcesses pid } r with
                completions :=
                  (SandboxState.decrementTreeCount
                    { s with trackedProcesses := removeMapping s.trackedProcesses pid }
                    r).completions ++ [r] }
         else SandboxState.decrementTreeCount
                { s with trackedProcesses := removeMapping s.trackedProcesses pid } r) := by
    unfold UntrackProcessWith
    rw [hrm]
    rfl
  have hproc : (SandboxState.decrementTreeCount
      { s with trackedProcesses := removeMapping s.trackedProcesses pid } r).processes
      = s.processes.set r
          { s.ent r with processTreeCount := (s.ent r).processTreeCount - 1 } := rfl
  have hent : ((SandboxState.decrementTreeCount
      { s with trackedProcesses := removeMapping s.trackedProcesses pid } r).ent
        r).processTreeCount = (s.ent r).processTreeCount - 1 := by
    show ((s.processes.set r
        { s.ent r with processTreeCount := (s.ent r).processTreeCount - 1 }).getD r
          default).processTreeCount = _
    rw [getD_set_self _ _ _ _ hrlen]
  have hids : ∀ j : Nat, ((SandboxState.decrementTreeCount
        { s with trackedProcesses := removeMapping s.trackedProcesses pid } r).ent
          j).processId = (s.ent j).processId
      ∧ ((SandboxState.decrementTreeCount
          { s with trackedProcesses := removeMapping s.trackedProcesses pid } r).ent
            j).clientPid = (s.ent j).clientPid
      ∧ ((SandboxState.decrementTreeCount
          { s with trackedProcesses := removeMapping s.trackedProcesses pid } r).ent
            j).pipId = (s.ent j).pipId := by
    intro j
    by_cases hj : r = j
    · subst hj
      have hget : (SandboxState.decrementTreeCount
          { s with trackedProcesses := removeMapping s.trackedProcesses pid } r).ent r
          = { s.ent r with processTreeCount := (s.ent r).processTreeCount - 1 } := by
        show (s.processes.set r _).getD r default = _
        rw [getD_set_self _ _ _ _ hrlen]
        rfl
      rw [hget]
      exact ⟨rfl, rfl, rfl⟩
    · have hget : (SandboxState.decrementTreeCount
          { s with trackedProcesses := removeMapping s.trackedProcesses pid } r).ent j
          = s.ent j := by
        show (s.processes.set r _).getD j default = _
        rw [getD_set_ne _ _ _ _ _ hj]
        rfl
      rw [hget]
      exact ⟨rfl, rfl, rfl⟩
  have hempty : (SandboxState.decrementTreeCount
      { s with trackedProcesses := removeMapping s.trackedProcesses pid }
      r).hasEmptyProcessTree r
      = decide ((s.ent r).processTreeCount - 1 = 0) := by
    unfold SandboxState.hasEmptyProcessTree
    rw [hent]
  by_cases hz : (s.ent r).processTreeCount - 1 = 0
  · rw [hub, if_pos (by rw [hempty]; exact decide_eq_true hz)]
    refine ⟨rfl, hproc, hent, hids, ?_, rfl, rfl⟩
    show (SandboxState.decrementTreeCount
        { s with trackedProcesses := removeMapping s.trackedProcesses pid }
        r).completions ++ [r] = s.completions ++ _
    rw [if_pos hz]
    rfl
  · rw [hub, if_neg (by rw [hempty]; simpa using hz)]
    refine ⟨rfl, hproc, hent, hids, ?_, rfl, rfl⟩
    show (SandboxState.decrementTreeCount
        { s with trackedProcesses := removeMapping s.trackedProcesses pid }
        r).completions = s.completions ++ _
    rw [if_neg hz]
    show s.completions = s.completions ++ ([] : List Nat)
    simp

/-- Claim C4: `untrack(pid, expectedPipId)` unlinks iff the pid is found and
(no expectation was given, i.e. expected id is `-1`, or the found entity's pip
id matches): in that case it removes the dictionary mapping for the pid,
decrements the shared entity's live-child count, and returns true; otherwise
it returns false and changes nothing. -/
theorem untrack_expected_pip_spec (s : SandboxState) (pid expectedPipId : Int)
    (hwf : ∀ x, s.getProcess pid = some x → x < s.processes.length) :
    match s.getProcess pid with
    | none => UntrackProcessPip s pid expectedPipId = (s, false)
    | some r =>
      if expectedPipId = -1 ∨ (s.ent r).pipId = expectedPipId then
        (UntrackProcessPip s pid expectedPipId).2 = true
        ∧ (UntrackProcessPip s pid expectedPipId).1.trackedProcesses
            = removeMapping s.trackedProcesses pid
        ∧ ((UntrackProcessPip s pid expectedPipId).1.ent r).processTreeCount
            = (s.ent r).processTreeCount - 1
        ∧ (UntrackProcessPip s pid expectedPipId).1.processes
            = s.processes.set r
                { s.ent r with processTreeCount := (s.ent r).processTreeCount - 1 }
      else UntrackProcessPip s pid expectedPipId = (s, false) := by
  cases hg : s.getProcess pid with
  | none =>
    simp only
    unfold UntrackProcessPip
    rw [hg]
  | some r =>
    simp only
    by_cases hcond : expectedPipId = -1 ∨ (s.ent r).pipId = expectedPipId
    · rw [if_pos hcond]
      have hstep : UntrackProcessPip s pid expectedPipId
          = (UntrackProcessWith s pid r, true) := by
        unfold UntrackProcessPip
        rw [hg]
        show (if expectedPipId = -1 ∨ (s.ent r).pipId = expectedPipId
            then (UntrackProcessWith s pid r, true) else (s, false))
            = (UntrackProcessWith s pid r, true)
        rw [if_pos hcond]
      have hspec := untrackWith_spec s pid r (find?_isSome_of_getProcess hg) (hwf r hg)
      rw [hstep]
      exact ⟨rfl, hspec.1, hspec.2.2.1, hspec.2.1⟩
    · rw [if_neg hcond]
      unfold UntrackProcessPip
      rw [hg]
      show (if expectedPipId = -1 ∨ (s.ent r).pipId = expectedPipId
          then (UntrackProcessWith s pid r, true) else (s, false)) = (s, false)
      rw [if_neg hcond]

theorem untrack_expected_pip_spec_witness :
    (UntrackProcessPip ⟨[(100, 0)], [⟨50, 100, 7, 2⟩], [], [], []⟩ 100 (-1)).2 = true
    ∧ (UntrackProcessPip ⟨[(100, 0)], [⟨50, 100, 7, 2⟩], [], [], []⟩
        100 (-1)).1.trackedProcesses = removeMapping [(100, 0)] 100
    ∧ ((UntrackProcessPip ⟨[(100, 0)], [⟨50, 100, 7, 2⟩], [], [], []⟩ 100 (-1)).1.ent
          0).processTreeCount
        = ((⟨[(100, 0)], [⟨50, 100, 7, 2⟩], [], [], []⟩ : SandboxState).ent
            0).processTreeCount - 1 := by
  have h := untrack_expected_pip_spec ⟨[(100, 0)], [⟨50, 100, 7, 2⟩], [], [], []⟩ 100 (-1)
    (by intro x hx; show x < 1; simp [SandboxState.getProcess] at hx; omega)
  rw [show (⟨[(100, 0)], [⟨50, 100, 7, 2⟩], [], [], []⟩ : SandboxState).getProcess 100
      = some 0 by decide] at h
  simp only at h
  rw [if_pos (Or.inl trivial)] at h
  exact ⟨h.1, h.2.1, h.2.2.1⟩

/-- Claim C5: `trackRoot` on a pid that already has a tracked entry first
untracks the stale entry — removing its mapping, decrementing its tree count,
and firing its completion exactly when that decrement reaches zero — and only
then inserts the new root under its own id; it returns the insertion's
success. -/
theorem trackRoot_collision_untracks_stale (s : SandboxState) (r exRef : Nat)
    (hex : s.getProcess ((s.ent r).processId) = some exRef)
    (hexlen : exRef < s.processes.length) :
    (TrackRootProcess s r).2 = true
    ∧ (TrackRootProcess s r).1.trackedProcesses
        = ((s.ent r).processId, r)
            :: removeMapping s.trackedProcesses ((s.ent r).processId)
    ∧ ((TrackRootProcess s r).1.ent exRef).processTreeCount
        = (s.ent exRef).processTreeCount - 1
    ∧ (TrackRootProcess s r).1.completions
        = s.completions
          ++ (if (s.ent exRef).processTreeCount - 1 = 0 then [exRef] else []) := by
  have hstep : TrackRootProcess s r
      = (UntrackProcessWith s ((s.ent r).processId) exRef).insertProcess r := by
    show (match s.getProcess ((s.ent r).processId) with
      | some exRef2 => UntrackProcessWith s ((s.ent r).processId) exRef2
      | none => s).insertProcess r
      = (UntrackProcessWith s ((s.ent r).processId) exRef).insertProcess r
    rw [hex]
  have hspec := untrackWith_spec s ((s.ent r).processId) exRef
    (find?_isSome_of_getProcess hex) hexlen
  rw [hstep]
  unfold SandboxState.insertProcess
  refine ⟨rfl, ?_, ?_, ?_⟩
  · show (((UntrackProcessWith s ((s.ent r).processId) exRef).ent r).processId, r)
        :: (UntrackProcessWith s ((s.ent r).processId) exRef).trackedProcesses
        = ((s.ent r).processId, r)
          :: removeMapping s.trackedProcesses ((s.ent r).processId)
    rw [(hspec.2.2.2.1 r).1, hspec.1]
  · show ((UntrackProcessWith s ((s.ent r).processId) exRef).ent exRef).processTreeCount
        = (s.ent exRef).processTreeCount - 1
    exact hspec.2.2.1
  · show (UntrackProcessWith s ((s.ent r).processId) exRef).completions
        = s.completions ++ _
    exact hspec.2.2.2.2.1

theorem trackRoot_collision_untracks_stale_witness :
    (TrackRootProcess ⟨[(100, 0)], [⟨50, 100, 7, 2⟩, ⟨60, 100, 8, 5⟩], [], [], []⟩ 1).2 = true
    ∧ (TrackRootProcess ⟨[(100, 0)], [⟨50, 100, 7, 2⟩, ⟨60, 100, 8, 5⟩], [], [], []⟩
          1).1.trackedProcesses
        = ((((⟨[(100, 0)], [⟨50, 100, 7, 2⟩, ⟨60, 100, 8, 5⟩], [], [], []⟩ : SandboxState).ent
              1).processId, 1))
            :: removeMapping [(100, 0)]
                 (((⟨[(100, 0)], [⟨50, 100, 7, 2⟩, ⟨60, 100, 8, 5⟩], [], [],
                      []⟩ : SandboxState).ent 1).processId)
    ∧ ((TrackRootProcess ⟨[(100, 0)], [⟨50, 100, 7, 2⟩, ⟨60, 100, 8, 5⟩], [], [], []⟩
          1).1.ent 0).processTreeCount
        = ((⟨[(100, 0)], [⟨50, 100, 7, 2⟩, ⟨60, 100, 8, 5⟩], [], [], []⟩ : SandboxState).ent
            0).processTreeCount - 1 := by
  have h := trackRoot_collision_untracks_stale
    ⟨[(100, 0)], [⟨50, 100, 7, 2⟩, ⟨60, 100, 8, 5⟩], [], [], []⟩ 1 0 (by decide) (by decide)
  exact ⟨h.1, h.2.1, h.2.2.1⟩

/-! ### The end-to-end completion scenario -/

theorem SandboxState.ext_fields (s1 s2 : SandboxState)
    (h1 : s1.trackedProcesses = s2.trackedProcesses) (h2 : s1.processes = s2.processes)
    (h3 : s1.reportQueues = s2.reportQueues) (h4 : s1.completions = s2.completions)
    (h5 : s1.consistencyErrors = s2.consistencyErrors) : s1 = s2 := by
  cases s1; cases s2
  cases h1; cases h2; cases h3; cases h4; cases h5
  rfl

theorem find?_eq_none_of_all {m : List (Int × Nat)} {p : Int}
    (h : ∀ x ∈ m, x.1 ≠ p) : m.find? (fun e => e.1 = p) = none := by
  rw [List.find?_eq_none]
  intro x hx
  simp [h x hx]

theorem find?_zero {m : List (Int × Nat)} {p : Int}
    (hall : ∀ x ∈ m, x.2 = 0) (hmem : p ∈ m.map (fun x => x.1)) :
    Option.map (fun e => e.2) (m.find? (fun e => e.1 = p)) = some 0 := by
  induction m with
  | nil => simp at hmem
  | cons a m ih =>
    by_cases hp : a.1 = p
    · rw [List.find?_cons_of_pos _ (by simp [hp])]
      simp [hall a (by simp)]
    · rw [List.find?_cons_of_neg _ (by simp [hp])]
      apply ih
      · intro x hx
        exact hall x (List.mem_cons_of_mem _ hx)
      · simp only [List.map_cons, List.mem_cons] at hmem
        rcases hmem with hmem | hmem
        · exact absurd hmem.symm hp
        · exact hmem

/-- Tracking a list of fresh, distinct child pids under the root entity adds
one mapping per child (all to the root's entity) and increments the root's
live-child count once per child. -/
theorem trackChildRun_spec :
    ∀ (cs : List Int) (m : List (Int × Nat)) (e : ProcessObject) (q : List Int)
      (comps : List Nat) (errs : List Int),
      cs.Nodup → (∀ c ∈ cs, ∀ x ∈ m, x.1 ≠ c) →
      trackChildRun ⟨m, [e], q, comps, errs⟩ cs 0
        = ⟨cs.reverse.map (fun c => (c, 0)) ++ m,
           [{ e with processTreeCount := e.processTreeCount + cs.length }],
           q, comps, errs⟩ := by
  intro cs
  induction cs with
  | nil =>
    intro m e q comps errs _ _
    show (⟨m, [e], q, comps, errs⟩ : SandboxState) = _
    apply SandboxState.ext_fields <;> simp
  | cons c cs ih =>
    intro m e q comps errs hnd hfresh
    have hmem := (List.nodup_cons.mp hnd).1
    have hnd2 := (List.nodup_cons.mp hnd).2
    have hstep : TrackChildProcess ⟨m, [e], q, comps, errs⟩ c 0
        = (⟨(c, 0) :: m,
            [{ e with processTreeCount := e.processTreeCount + 1 }], q, comps, errs⟩,
           true) := by
      unfold TrackChildProcess
      have hnone : (⟨m, [e], q, comps, errs⟩ : SandboxState).getProcess c = none := by
        unfold SandboxState.getProcess
        rw [find?_eq_none_of_all (fun x hx => hfresh c (by simp) x hx)]
        rfl
      rw [hnone]
      rfl
    have hfresh2 : ∀ c2 ∈ cs, ∀ x ∈ ((c, 0) :: m : List (Int × Nat)), x.1 ≠ c2 := by
      intro c2 hc2 x hx
      rcases List.mem_cons.mp hx with hx | hx
      · subst hx
        show c ≠ c2
        intro hcc
        exact hmem (hcc ▸ hc2)
      · exact hfresh c2 (List.mem_cons_of_mem _ hc2) x hx
    have hfold : trackChildRun ⟨m, [e], q, comps, errs⟩ (c :: cs) 0
        = trackChildRun (TrackChildProcess ⟨m, [e], q, comps, errs⟩ c 0).1 cs 0 := rfl
    rw [hfold, hstep,
      ih ((c, 0) :: m) { e with processTreeCount := e.processTreeCount + 1 }
        q comps errs hnd2 hfresh2]
    apply SandboxState.ext_fields <;> simp
    omega

/-- Untracking distinct child pids (all mapped to the root's shared entity,
which counts the untracked children plus the root itself) removes the
children's mappings one by one, decrements the count once per call, and never
reaches zero — no completion fires — as long as the root's own mapping is
still in place. -/
theorem untrackRun_children_spec :
    ∀ (cs : List Int) (rootPid : Int) (e : ProcessObject) (q : List Int) (errs : List Int),
      cs.Nodup → rootPid ∉ cs → e.processTreeCount = cs.length + 1 →
      untrackRun ⟨cs.reverse.map (fun c => (c, 0)) ++ [(rootPid, 0)], [e], q, [], errs⟩ cs
        = ⟨[(rootPid, 0)], [{ e with processTreeCount := 1 }], q, [], errs⟩ := by
  intro cs
  induction cs with
  | nil =>
    intro rootPid e q errs _ _ hcount
    show (⟨[(rootPid, 0)], [e], q, [], errs⟩ : SandboxState) = _
    apply SandboxState.ext_fields <;> simp
    cases e with
    | mk a b c d =>
      simp at hcount
      simp [hcount]
  | cons c cs ih =>
    intro rootPid e q errs hnd hroot hcount
    have hmem := (List.nodup_cons.mp hnd).1
    have hnd2 := (List.nodup_cons.mp hnd).2
    have hrootc : rootPid ≠ c := fun h => hroot (h ▸ List.mem_cons_self c cs)
    have hroot2 : rootPid ∉ cs := fun h => hroot (List.mem_cons_of_mem _ h)
    set m : List (Int × Nat) :=
      (c :: cs).reverse.map (fun d => (d, 0)) ++ [(rootPid, 0)] with hm
    have hall : ∀ x ∈ m, x.2 = 0 := by
      intro x hx
      rcases List.mem_append.mp hx with hx | hx
      · rcases List.mem_map.mp hx with ⟨d, _, rfl⟩
        rfl
      · simp only [List.mem_singleton] at hx
        rw [hx]
    have hcm : c ∈ m.map (fun x => x.1) := by
      rw [hm]
      simp
    have hget : (⟨m, [e], q, [], errs⟩ : SandboxState).getProcess c = some 0 := by
      unfold SandboxState.getProcess
      exact find?_zero hall hcm
    have hfind : ((⟨m, [e], q, [], errs⟩ : SandboxState).trackedProcesses.find?
        (fun x => x.1 = c)).isSome = true := find?_isSome_of_getProcess hget
    have hlen : (0 : Nat) < (⟨m, [e], q, [], errs⟩ : SandboxState).processes.length := by
      show (0 : Nat) < 1
      omega
    have hspec := untrackWith_spec ⟨m, [e], q, [], errs⟩ c 0 hfind hlen
    have hfilter : removeMapping m c
        = cs.reverse.map (fun d => (d, 0)) ++ [(rootPid, 0)] := by
      rw [hm]
      unfold removeMapping
      rw [List.reverse_cons, List.map_append, List.filter_append, List.filter_append]
      have h1 : (cs.reverse.map (fun d => (d, 0))).filter (fun x => x.1 ≠ c)
          = cs.reverse.map (fun d => (d, 0)) := by
        rw [List.filter_eq_self]
        intro x hx
        rcases List.mem_map.mp hx with ⟨d, hd, rfl⟩
        have : d ≠ c := by
          intro hdc
          exact hmem (hdc ▸ List.mem_reverse.mp hd)
        simpa using this
      have h2 : (([c].map (fun d => (d, 0))).filter (fun x => x.1 ≠ c))
          = ([] : List (Int × Nat)) := by simp
      have h3 : (([(rootPid, 0)] : List (Int × Nat)).filter (fun x => x.1 ≠ c))
          = [(rootPid, 0)] := by
        simp [hrootc]
      rw [h1, h2, h3]
      simp
    have hpip : UntrackProcessPip ⟨m, [e], q, [], errs⟩ c (-1)
        = (UntrackProcessWith ⟨m, [e], q, [], errs⟩ c 0, true) := by
      unfold UntrackProcessPip
      rw [hget]
      show (if (-1 : Int) = -1 ∨ _ then _ else _) = _
      rw [if_pos (Or.inl rfl)]
    have hstate : (UntrackProcessPip ⟨m, [e], q, [], errs⟩ c (-1)).1
        = ⟨cs.reverse.map (fun d => (d, 0)) ++ [(rootPid, 0)],
           [{ e with processTreeCount := e.processTreeCount - 1 }], q, [], errs⟩ := by
      rw [hpip]
      apply SandboxState.ext_fields
      · rw [hspec.1, hfilter]
      · rw [hspec.2.1]
        rfl
      · exact hspec.2.2.2.2.2.1
      · rw [hspec.2.2.2.2.1]
        show ([] : List Nat) ++ (if e.processTreeCount - 1 = 0 then [0] else []) = []
        have hne : ¬ (e.processTreeCount - 1 = 0) := by
          simp only [List.length_cons] at hcount
          omega
        rw [if_neg hne]
        rfl
      · exact hspec.2.2.2.2.2.2
    have hfold : untrackRun ⟨m, [e], q, [], errs⟩ (c :: cs)
        = untrackRun (UntrackProcessPip ⟨m, [e], q, [], errs⟩ c (-1)).1 cs := rfl
    rw [hfold, hstate,
      ih rootPid { e with processTreeCount := e.processTreeCount - 1 } q errs hnd2 hroot2
        (by simp only [List.length_cons] at hcount ⊢; show e.processTreeCount - 1 = _; omega)]

/-- Every untrack call only ever appends to the completion log. -/
theorem untrackRun_completions_extend (l : List Int) :
    ∀ (s : SandboxState), ∃ tail, (untrackRun s l).completions = s.completions ++ tail := by
  induction l with
  | nil =>
    intro s
    exact ⟨[], by simp [untrackRun]⟩
  | cons p l ih =>
    intro s
    have hstep : ∃ t1, (UntrackProcessPip s p (-1)).1.completions = s.completions ++ t1 := by
      cases hg : s.getProcess p with
      | none =>
        have hpip : UntrackProcessPip s p (-1) = (s, false) := by
          unfold UntrackProcessPip
          rw [hg]
        rw [hpip]
        exact ⟨[], by simp⟩
      | some r =>
        have hpip : UntrackProcessPip s p (-1) = (UntrackProcessWith s p r, true) := by
          unfold UntrackProcessPip
          rw [hg]
          show (if (-1 : Int) = -1 ∨ (s.ent r).pipId = -1
              then (UntrackProcessWith s p r, true) else (s, false))
              = (UntrackProcessWith s p r, true)
          rw [if_pos (Or.inl rfl)]
        rw [hpip]
        show ∃ t1, (UntrackProcessWith s p r).completions = s.completions ++ t1
        unfold UntrackProcessWith
        cases hrm : s.removeProcess p with
        | mk s1 ok =>
          have hs1 : s1.completions = s.completions := by
            unfold SandboxState.removeProcess at hrm
            by_cases hf : (s.trackedProcesses.find? (fun x => x.1 = p)).isSome = true
            · rw [if_pos hf] at hrm
              cases hrm
              rfl
            · rw [if_neg hf] at hrm
              cases hrm
              rfl
          cases ok with
          | false => exact ⟨[], by simpa using hs1⟩
          | true =>
            by_cases hz : (s1.decrementTreeCount r).hasEmptyProcessTree r
            · refine ⟨[r], ?_⟩
              show (if (s1.decrementTreeCount r).hasEmptyProcessTree r = true then _ else _
                  : SandboxState).completions = _
              rw [if_pos hz]
              show (s1.decrementTreeCount r).completions ++ [r] = s.completions ++ [r]
              rw [show (s1.decrementTreeCount r).completions = s1.completions from rfl, hs1]
            · refine ⟨[], ?_⟩
              show (if (s1.decrementTreeCount r).hasEmptyProcessTree r = true then _ else _
                  : SandboxState).completions = _
              rw [if_neg hz]
              show s1.completions = s.completions ++ []
              rw [hs1]
              simp
    rcases hstep with ⟨t1, ht1⟩
    rcases ih (UntrackProcessPip s p (-1)).1 with ⟨t2, ht2⟩
    refine ⟨t1 ++ t2, ?_⟩
    show (untrackRun (UntrackProcessPip s p (-1)).1 l).completions = _
    rw [ht2, ht1, List.append_assoc]

/-- Untracking the root itself when it is the last tree member (count 1):
the mapping is removed, the count reaches 0, and the completion fires. -/
theorem untrack_root_completion (rootPid : Int) (e : ProcessObject) (q : List Int)
    (errs : List Int) (hone : e.processTreeCount = 1) :
    (untrackRun ⟨[(rootPid, 0)], [e], q, [], errs⟩ [rootPid]).completions = [0] := by
  show (UntrackProcessPip ⟨[(rootPid, 0)], [e], q, [], errs⟩ rootPid (-1)).1.completions = [0]
  have hgetr : (⟨[(rootPid, 0)], [e], q, [], errs⟩ : SandboxState).getProcess rootPid
      = some 0 := by
    unfold SandboxState.getProcess
    rw [List.find?_cons_of_pos _ (by simp)]
    rfl
  have hpipr : UntrackProcessPip ⟨[(rootPid, 0)], [e], q, [], errs⟩ rootPid (-1)
      = (UntrackProcessWith ⟨[(rootPid, 0)], [e], q, [], errs⟩ rootPid 0, true) := by
    unfold UntrackProcessPip
    rw [hgetr]
    show (if (-1 : Int) = -1 ∨ _ then _ else _) = _
    rw [if_pos (Or.inl rfl)]
  rw [hpipr]
  have hspecr := untrackWith_spec ⟨[(rootPid, 0)], [e], q, [], errs⟩ rootPid 0
    (find?_isSome_of_getProcess hgetr) (by show (0 : Nat) < 1; omega)
  show (UntrackProcessWith ⟨[(rootPid, 0)], [e], q, [], errs⟩ rootPid 0).completions = [0]
  rw [hspecr.2.2.2.2.1]
  show ([] : List Nat) ++ (if e.processTreeCount - 1 = 0 then [0] else []) = [0]
  rw [if_pos (by omega : e.processTreeCount - 1 = 0)]
  rfl

/-- Claim C1 (amended): with the live-child count initialized to 1 at creation
(the root counts itself) and incremented once per linked child, tree completion
fires exactly once and exactly on the untrack call that brings the count to
zero: for a root with K linked children, untracking the children one by one
and then the root leaves the completion log empty after every proper prefix of
the untrack sequence and fires the completion report exactly once, on the
(K+1)-th untrack call.  In particular, for root pid=100 with children 101 and
102, untracking 101, then 102, then 100 fires completion exactly on the third
call and never earlier (see the witness). -/
theorem processTree_completion_fires_on_last_untrack
    (clientPid rootPid pipId : Int) (children : List Int)
    (hnodup : children.Nodup) (hroot : rootPid ∉ children) :
    (∀ n : Nat,
      (untrackRun
        (trackChildRun (TrackRootProcess (SandboxState.initial
          [ProcessObject.createRooted clientPid rootPid pipId]) 0).1 children 0)
        (children.take n)).completions = [])
    ∧ (untrackRun
        (untrackRun
          (trackChildRun (TrackRootProcess (SandboxState.initial
            [ProcessObject.createRooted clientPid rootPid pipId]) 0).1 children 0)
          children)
        [rootPid]).completions = [0] := by
  have hs1 : (TrackRootProcess (SandboxState.initial
      [ProcessObject.createRooted clientPid rootPid pipId]) 0).1
      = ⟨[(rootPid, 0)], [ProcessObject.createRooted clientPid rootPid pipId],
         [], [], []⟩ := rfl
  have hfresh : ∀ c ∈ children, ∀ x ∈ ([(rootPid, 0)] : List (Int × Nat)), x.1 ≠ c := by
    intro c hc x hx
    simp only [List.mem_singleton] at hx
    subst hx
    show rootPid ≠ c
    intro h
    exact hroot (h ▸ hc)
  have hs3 := trackChildRun_spec children [(rootPid, 0)]
    (ProcessObject.createRooted clientPid rootPid pipId) [] [] [] hnodup hfresh
  have hchain := untrackRun_children_spec children rootPid
    (ProcessObject.mk
      (ProcessObject.createRooted clientPid rootPid pipId).clientPid
      (ProcessObject.createRooted clientPid rootPid pipId).processId
      (ProcessObject.createRooted clientPid rootPid pipId).pipId
      ((ProcessObject.createRooted clientPid rootPid pipId).processTreeCount
        + children.length))
    [] [] hnodup hroot
    (by show (1 : Int) + (children.length : Int) = (children.length : Int) + 1; omega)
  have hfull : (untrackRun
      (trackChildRun (TrackRootProcess (SandboxState.initial
        [ProcessObject.createRooted clientPid rootPid pipId]) 0).1 children 0)
      children).completions = [] := by
    rw [hs1, hs3, hchain]
  constructor
  · intro n
    have hsplit : untrackRun
        (trackChildRun (TrackRootProcess (SandboxState.initial
          [ProcessObject.createRooted clientPid rootPid pipId]) 0).1 children 0)
        children
        = untrackRun
            (untrackRun
              (trackChildRun (TrackRootProcess (SandboxState.initial
                [ProcessObject.createRooted clientPid rootPid pipId]) 0).1 children 0)
              (children.take n))
            (children.drop n) := by
      unfold untrackRun
      rw [← List.foldl_append, List.take_append_drop]
    rcases untrackRun_completions_extend (children.drop n)
        (untrackRun
          (trackChildRun (TrackRootProcess (SandboxState.initial
            [ProcessObject.createRooted clientPid rootPid pipId]) 0).1 children 0)
          (children.take n)) with ⟨tail, htail⟩
    have h0 := hfull
    rw [hsplit, htail] at h0
    exact (List.append_eq_nil.mp h0).1
  · rw [hs1, hs3, hchain]
    exact untrack_root_completion rootPid _ [] [] rfl

theorem processTree_completion_fires_on_last_untrack_witness :
    ([101, 102] : List Int).Nodup
    ∧ ((100 : Int) ∉ ([101, 102] : List Int))
    ∧ (untrackRun (trackChildRun (TrackRootProcess (SandboxState.initial
          [ProcessObject.createRooted 10 100 7]) 0).1 [101, 102] 0) [101]).completions = []
    ∧ (untrackRun (trackChildRun (TrackRootProcess (SandboxState.initial
          [ProcessObject.createRooted 10 100 7]) 0).1 [101, 102] 0)
        [101, 102]).completions = []
    ∧ (untrackRun (untrackRun (trackChildRun (TrackRootProcess (SandboxState.initial
          [ProcessObject.createRooted 10 100 7]) 0).1 [101, 102] 0) [101, 102])
        [100]).completions = [0] := by
  have h := processTree_completion_fires_on_last_untrack 10 100 7 [101, 102]
    (by decide) (by decide)
  exact ⟨by decide, by decide, h.1 1, h.1 2, h.2⟩

end Spec2Proof
